import Mathlib

/-!
Verification of the news-collection pipeline in `ai_news_collector.py`.

The Python source is shallowly embedded: pure string/list logic is translated
directly; external collaborators (BeautifulSoup parsing, `urljoin`,
`email.utils.parsedate_to_datetime`, the network, the process clock) are
parameters of the embedded functions; the on-disk archive becomes an explicit
association list from path components to file contents.
-/

/-- Contiguous-substring search on character lists (Python's `pat in s`).
The empty pattern is found everywhere, as in Python. -/
def hasSub (pat : List Char) : List Char → Bool
  | [] => pat.isPrefixOf []
  | c :: t => pat.isPrefixOf (c :: t) || hasSub pat t

/-- Python's substring test `pat in s`, over strings. -/
def pyIn (pat s : String) : Bool := hasSub pat.data s.data

/-- ASCII case folding of one character (Python `str.lower`; the only cased
characters appearing in the embedded data are ASCII — Hangul has no case). -/
def lowerChar (c : Char) : Char :=
  if 65 ≤ c.toNat ∧ c.toNat ≤ 90 then Char.ofNat (c.toNat + 32) else c

/-- Python `str.lower` on a whole string. -/
def pyLower (s : String) : String := ⟨s.data.map lowerChar⟩

/-- First truthy value of a chain `a or b or c ...` of optional strings
(Python treats `None` and `""` as falsy). -/
def firstTruthy : List (Option String) → Option String
  | [] => none
  | none :: rest => firstTruthy rest
  | some s :: rest => if s = "" then firstTruthy rest else some s

/-! ## NewsAnalyzer._fallback_analysis — keyword relevance (claim C9) -/

/-- `ai_keywords` list from `NewsAnalyzer._fallback_analysis`. -/
def ai_keywords : List String :=
  ["ai", "artificial intelligence", "인공지능", "machine learning", "머신러닝",
   "deep learning", "딥러닝", "neural network", "신경망", "llm", "gpt", "claude",
   "gemini", "chatgpt", "openai", "anthropic", "transformer", "자연어처리", "nlp",
   "computer vision", "컴퓨터 비전", "reinforcement learning", "강화학습",
   "generative ai", "생성형 ai", "foundation model", "파운데이션 모델", "nvidia",
   "엔비디아", "gpu", "cuda", "tensor", "텐서", "추론", "inference"]

/-- `non_ai_keywords` list from `NewsAnalyzer._fallback_analysis`. -/
def non_ai_keywords : List String :=
  ["결혼", "이혼", "열애", "연예", "아이돌", "드라마", "예능", "가수", "배우",
   "축구", "야구", "농구", "올림픽", "월드컵", "경기 결과", "승리", "패배",
   "날씨", "기온", "강수량", "미세먼지"]

/-- `ai_content_patterns` list from `NewsAnalyzer._fallback_analysis`. -/
def ai_content_patterns : List String :=
  ["ai웹툰", "ai만화", "ai 웹툰", "ai 만화", "ai그림", "ai 그림", "ai이미지",
   "ai 이미지", "ai영상", "ai 영상", "ai이슈트렌드", "ai 이슈트렌드",
   "ai 이슈 트렌드", "[ai웹툰]", "[ai만화]", "[ai 웹툰]", "[ai 만화]"]

/-- The `is_ai_related` flag computed by `NewsAnalyzer._fallback_analysis`
(lines 634-735): `text = (title + " " + content).lower()`;
`is_ai_related = has_ai_keyword and not has_non_ai_keyword and not
is_ai_generated_content`.  (Python `str.lower` is modelled by `pyLower`;
every keyword is ASCII or Hangul, where the two coincide.) -/
def fallback_is_ai_related (title content : String) : Bool :=
  let text := pyLower (title ++ " " ++ content)
  let title_lower := pyLower title
  let is_ai_generated_content := ai_content_patterns.any fun p => pyIn p title_lower
  let has_ai_keyword := ai_keywords.any fun k => pyIn k text
  let has_non_ai_keyword := non_ai_keywords.any fun k => pyIn k text
  has_ai_keyword && !has_non_ai_keyword && !is_ai_generated_content

/-- The `rejection_reason` computed alongside the flag (same function). -/
def fallback_rejection_reason (title content : String) : String :=
  let text := pyLower (title ++ " " ++ content)
  let title_lower := pyLower title
  let is_ai_generated_content := ai_content_patterns.any fun p => pyIn p title_lower
  let has_ai_keyword := ai_keywords.any fun k => pyIn k text
  let has_non_ai_keyword := non_ai_keywords.any fun k => pyIn k text
  if is_ai_generated_content then "AI로 만든 콘텐츠 (AI 기술 뉴스 아님)"
  else if has_non_ai_keyword then "비AI 관련 콘텐츠 (연예/스포츠/일반)"
  else if !has_ai_keyword then "AI 관련 키워드 없음"
  else ""

/-! ## NewsCollector image extraction (claim C8) -/

/-- `exclude_patterns` from `NewsCollector._is_valid_image_url`. -/
def exclude_patterns : List String :=
  ["pixel", "tracking", "analytics", "beacon", "advertisement", "banner",
   "ad.", "ads.", "1x1", "spacer", "blank", "transparent"]

/-- `valid_extensions` from `NewsCollector._is_valid_image_url`. -/
def valid_extensions : List String := [".jpg", ".jpeg", ".png", ".gif", ".webp"]

/-- `image_services` from `NewsCollector._is_valid_image_url`. -/
def image_services : List String := ["wp-content/uploads", "images", "img", "photo", "media"]

/-- `NewsCollector._is_valid_image_url` (lines 1220-1254). -/
def is_valid_image_url (url : String) : Bool :=
  if url = "" then false
  else
    let url_lower := pyLower url
    if exclude_patterns.any fun p => pyIn p url_lower then false
    else
      let has_valid_ext := valid_extensions.any fun e => pyIn e url_lower
      let is_image_service := image_services.any fun s => pyIn s url_lower
      has_valid_ext || is_image_service

/-- One `<img>` tag as consulted by `_extract_all_images`:
its `src`, `data-src` and `data-original` attributes. -/
structure ImgTag where
  src : Option String
  data_src : Option String
  data_original : Option String

/-- State of `_extract_all_images`: the `images` list and the `seen_urls` set
(the set is kept as a list; only membership is used). -/
abbrev ImgState := List String × List String

/-- The Open-Graph step of `_extract_all_images` (lines 1188-1196), starting
from empty `images` / `seen_urls`.  `og` is the result of
`soup.select_one('meta[property="og:image"]')` followed by `.get("content")`;
`uj` models `urllib.parse.urljoin`. -/
def ogStep (uj : String → String → String) (base_url : String)
    (og : Option (Option String)) : ImgState :=
  match og with
  | some (some url) =>
    if url ≠ "" && is_valid_image_url url then
      let full_url := uj base_url url
      if !(([] : List String).contains full_url) then ([full_url], [full_url])
      else ([], [])
    else ([], [])
  | _ => ([], [])

/-- The per-image step of the article-body loop of `_extract_all_images`
(lines 1208-1215). -/
def bodyStep (uj : String → String → String) (base_url : String)
    (st : ImgState) (img : ImgTag) : ImgState :=
  match firstTruthy [img.src, img.data_src, img.data_original] with
  | some url =>
    let full_url := uj base_url url
    if !st.2.contains full_url && is_valid_image_url full_url then
      (st.1 ++ [full_url], st.2 ++ [full_url])
    else st
  | none => st

/-- `NewsCollector._extract_all_images` (lines 1181-1218).  `article_imgs` is
the list, per article selector, of the `<img>` tags that
`soup.select(selector)` returns. -/
def extract_all_images (uj : String → String → String) (base_url : String)
    (og : Option (Option String)) (article_imgs : List (List ImgTag)) : List String :=
  let st0 := ogStep uj base_url og
  let stF := article_imgs.foldl (fun st imgs => imgs.foldl (bodyStep uj base_url) st) st0
  stF.1.take 10

/-! ### Invariants of the image-extraction fold -/

theorem bodyStep_inv (uj : String → String → String) (base : String)
    (st : ImgState) (img : ImgTag) (h1 : st.1 = st.2) (h2 : st.1.Nodup) :
    (bodyStep uj base st img).1 = (bodyStep uj base st img).2 ∧
      (bodyStep uj base st img).1.Nodup := by
  unfold bodyStep
  cases hft : firstTruthy [img.src, img.data_src, img.data_original] with
  | none => exact ⟨h1, h2⟩
  | some url =>
    dsimp only
    split
    · rename_i hcond
      refine ⟨by rw [h1], ?_⟩
      have hmem : uj base url ∉ st.1 := by
        intro hm
        rw [Bool.and_eq_true] at hcond
        have hc := hcond.1
        rw [Bool.not_eq_true'] at hc
        rw [h1] at hm
        have ht : st.2.contains (uj base url) = true :=
          List.contains_iff_exists_mem_beq.mpr ⟨_, hm, by simp⟩
        rw [hc] at ht
        exact Bool.false_ne_true ht
      simp [List.nodup_append, h2, hmem]
    · exact ⟨h1, h2⟩

theorem bodyFold_inv (uj : String → String → String) (base : String)
    (imgs : List ImgTag) (st : ImgState) (h1 : st.1 = st.2) (h2 : st.1.Nodup) :
    (imgs.foldl (bodyStep uj base) st).1 = (imgs.foldl (bodyStep uj base) st).2 ∧
      (imgs.foldl (bodyStep uj base) st).1.Nodup := by
  induction imgs generalizing st with
  | nil => exact ⟨h1, h2⟩
  | cons img rest ih =>
    simp only [List.foldl_cons]
    have h := bodyStep_inv uj base st img h1 h2
    exact ih _ h.1 h.2

theorem selFold_inv (uj : String → String → String) (base : String)
    (sels : List (List ImgTag)) (st : ImgState) (h1 : st.1 = st.2) (h2 : st.1.Nodup) :
    ((sels.foldl (fun st imgs => imgs.foldl (bodyStep uj base) st) st).1 =
      (sels.foldl (fun st imgs => imgs.foldl (bodyStep uj base) st) st).2) ∧
      (sels.foldl (fun st imgs => imgs.foldl (bodyStep uj base) st) st).1.Nodup := by
  induction sels generalizing st with
  | nil => exact ⟨h1, h2⟩
  | cons imgs rest ih =>
    simp only [List.foldl_cons]
    have h := bodyFold_inv uj base imgs st h1 h2
    exact ih _ h.1 h.2

theorem ogStep_inv (uj : String → String → String) (base : String)
    (og : Option (Option String)) :
    (ogStep uj base og).1 = (ogStep uj base og).2 ∧ (ogStep uj base og).1.Nodup := by
  unfold ogStep
  rcases og with _ | (_ | url)
  · exact ⟨rfl, List.nodup_nil⟩
  · exact ⟨rfl, List.nodup_nil⟩
  · dsimp only
    split
    · split
      · exact ⟨rfl, List.nodup_singleton _⟩
      · exact ⟨rfl, List.nodup_nil⟩
    · exact ⟨rfl, List.nodup_nil⟩

/-- C8: the image list built by `_extract_all_images` has no duplicate URLs and
at most 10 elements; `_is_valid_image_url` rejects every URL containing an
exclusion pattern (in particular a tracking-pixel URL and a 1x1-spacer URL) and
keeps a `.jpg` URL under a `wp-content/uploads` path. -/
theorem c8_extract_all_images :
    (∀ (uj : String → String → String) (base : String) (og : Option (Option String))
        (imgs : List (List ImgTag)),
      (extract_all_images uj base og imgs).Nodup ∧
        (extract_all_images uj base og imgs).length ≤ 10) ∧
    (∀ url p, p ∈ exclude_patterns → pyIn p (pyLower url) = true →
      is_valid_image_url url = false) ∧
    is_valid_image_url "https://cdn.example.com/tracking-pixel.gif" = false ∧
    is_valid_image_url "https://cdn.example.com/spacer-1x1.gif" = false ∧
    is_valid_image_url "https://example.com/wp-content/uploads/2025/01/photo.jpg" = true := by
  refine ⟨?_, ?_, by decide, by decide, by decide⟩
  · intro uj base og imgs
    have h0 := ogStep_inv uj base og
    have h := selFold_inv uj base imgs _ h0.1 h0.2
    unfold extract_all_images
    refine ⟨(List.take_sublist _ _).nodup h.2, ?_⟩
    rw [List.length_take]
    exact min_le_left _ _
  · intro url p hp hin
    simp only [is_valid_image_url]
    split
    · rfl
    · have hany : (exclude_patterns.any fun q => pyIn q (pyLower url)) = true :=
        List.any_eq_true.mpr ⟨p, hp, hin⟩
      simp only [hany, if_true]

/-- Closed instance of `c8_extract_all_images`, discharging its hypotheses at a
concrete input. -/
theorem c8_extract_all_images_witness :
    (extract_all_images (fun _ u => u) "https://e.com"
        (some (some "https://e.com/a.jpg"))
        [[⟨some "https://e.com/a.jpg", none, none⟩,
          ⟨some "https://e.com/b.png", none, none⟩]]).Nodup ∧
    is_valid_image_url "https://t.co/ad-pixel.gif" = false := by
  refine ⟨(c8_extract_all_images.1 _ _ _ _).1, ?_⟩
  exact c8_extract_all_images.2.1 "https://t.co/ad-pixel.gif" "pixel" (by decide) (by decide)

/-- C9: the relevance flag returned by the keyword fallback classifier
(`NewsAnalyzer._fallback_analysis`) is true iff the case-folded concatenation
of title and body contains an AI-domain keyword, contains no exclusion-domain
keyword, and the title matches no AI-generated-content pattern. -/
theorem c9_fallback_relevance (title content : String) :
    fallback_is_ai_related title content = true ↔
      ((∃ kw ∈ ai_keywords, pyIn kw (pyLower (title ++ " " ++ content)) = true) ∧
        (∀ kw ∈ non_ai_keywords, pyIn kw (pyLower (title ++ " " ++ content)) = false) ∧
        (∀ p ∈ ai_content_patterns, pyIn p (pyLower title) = false)) := by
  simp only [fallback_is_ai_related, Bool.and_eq_true, Bool.not_eq_true',
    List.any_eq_true, List.any_eq_false, Bool.not_eq_true]
  tauto

/-- Closed instance of `c9_fallback_relevance` at a concrete relevant input. -/
theorem c9_fallback_relevance_witness :
    fallback_is_ai_related "OpenAI releases new model" "the llm is fast" = true :=
  (c9_fallback_relevance "OpenAI releases new model" "the llm is fast").mpr
    (by refine ⟨⟨"ai", by decide, by decide⟩, by decide, by decide⟩)

/-! ## Date parsing — NewsCollector._parse_date / _parse_date_string (claim C2) -/

/-- A Python `datetime` value; `tz` is the UTC offset in minutes when the value
is timezone-aware, `none` when naive. -/
structure PyDateTime where
  year : Nat
  month : Nat
  day : Nat
  hour : Nat
  minute : Nat
  second : Nat
  tz : Option Int
deriving DecidableEq

def isDigitCh (c : Char) : Bool := 48 ≤ c.toNat ∧ c.toNat ≤ 57

def digitVal (c : Char) : Nat := c.toNat - 48

def isSpaceCh (c : Char) : Bool :=
  c = ' ' ∨ c = '\t' ∨ c = '\n' ∨ c.toNat = 13 ∨ c.toNat = 11 ∨ c.toNat = 12

/-- Python regex `\w`, restricted to the alphabets the program meets:
ASCII alphanumerics, underscore, and Hangul syllables. -/
def isWordCh (c : Char) : Bool :=
  isDigitCh c ∨ (97 ≤ (lowerChar c).toNat ∧ (lowerChar c).toNat ≤ 122) ∨ c = '_' ∨
    (0xAC00 ≤ c.toNat ∧ c.toNat ≤ 0xD7A3)

def isLeapYear (y : Nat) : Bool := (y % 4 = 0 ∧ y % 100 ≠ 0) ∨ y % 400 = 0

def daysInMonth (y m : Nat) : Nat :=
  if m = 2 then (if isLeapYear y then 29 else 28)
  else if m = 4 ∨ m = 6 ∨ m = 9 ∨ m = 11 then 30 else 31

/-- The `datetime(...)` constructor: validates every field, as the Python
constructor does (raising, i.e. `none`, on out-of-range values). -/
def mkDatetime (y mo d h mi s : Nat) (tz : Option Int) : Option PyDateTime :=
  if 1 ≤ y ∧ y ≤ 9999 ∧ 1 ≤ mo ∧ mo ≤ 12 ∧ 1 ≤ d ∧ d ≤ daysInMonth y mo ∧
      h ≤ 23 ∧ mi ≤ 59 ∧ s ≤ 59
  then some ⟨y, mo, d, h, mi, s, tz⟩ else none

/-- One `strptime` format directive.  Numeric directives carry CPython's
field regexes (`%Y` is `\d{4}`, `%m` is `1[0-2]|0[1-9]|[1-9]`, etc.); a literal
whitespace in a format string matches one or more whitespace characters. -/
inductive FmtDir
  | lit (c : Char)
  | ws
  | year4
  | month2
  | day2
  | hour2
  | minute2
  | second2
  | zone
  | monthAbbr
  | weekdayAbbr

/-- `%Y`: exactly four digits. -/
def parseYear4 : List Char → Option (Nat × List Char)
  | a :: b :: c :: d :: rest =>
    if isDigitCh a ∧ isDigitCh b ∧ isDigitCh c ∧ isDigitCh d then
      some (digitVal a * 1000 + digitVal b * 100 + digitVal c * 10 + digitVal d, rest)
    else none
  | _ => none

/-- `%m`: `1[0-2]|0[1-9]|[1-9]`. -/
def parseMonth2 : List Char → Option (Nat × List Char)
  | a :: b :: rest =>
    if a = '1' ∧ isDigitCh b ∧ digitVal b ≤ 2 then some (10 + digitVal b, rest)
    else if a = '0' ∧ isDigitCh b ∧ 1 ≤ digitVal b then some (digitVal b, rest)
    else if isDigitCh a ∧ 1 ≤ digitVal a then some (digitVal a, b :: rest)
    else none
  | [a] => if isDigitCh a ∧ 1 ≤ digitVal a then some (digitVal a, []) else none
  | [] => none

/-- `%d`: `3[01]|[12]\d|0[1-9]|[1-9]`. -/
def parseDay2 : List Char → Option (Nat × List Char)
  | a :: b :: rest =>
    if a = '3' ∧ (b = '0' ∨ b = '1') then some (30 + digitVal b, rest)
    else if (a = '1' ∨ a = '2') ∧ isDigitCh b then some (digitVal a * 10 + digitVal b, rest)
    else if a = '0' ∧ isDigitCh b ∧ 1 ≤ digitVal b then some (digitVal b, rest)
    else if isDigitCh a ∧ 1 ≤ digitVal a then some (digitVal a, b :: rest)
    else none
  | [a] => if isDigitCh a ∧ 1 ≤ digitVal a then some (digitVal a, []) else none
  | [] => none

/-- `%H`: `2[0-3]|[0-1]\d|\d`. -/
def parseHour2 : List Char → Option (Nat × List Char)
  | a :: b :: rest =>
    if a = '2' ∧ isDigitCh b ∧ digitVal b ≤ 3 then some (20 + digitVal b, rest)
    else if (a = '0' ∨ a = '1') ∧ isDigitCh b then some (digitVal a * 10 + digitVal b, rest)
    else if isDigitCh a then some (digitVal a, b :: rest)
    else none
  | [a] => if isDigitCh a then some (digitVal a, []) else none
  | [] => none

/-- `%M`: `[0-5]\d|\d`. -/
def parseMin2 : List Char → Option (Nat × List Char)
  | a :: b :: rest =>
    if isDigitCh a ∧ digitVal a ≤ 5 ∧ isDigitCh b then
      some (digitVal a * 10 + digitVal b, rest)
    else if isDigitCh a then some (digitVal a, b :: rest)
    else none
  | [a] => if isDigitCh a then some (digitVal a, []) else none
  | [] => none

/-- `%S`: `6[0-1]|[0-5]\d|\d`. -/
def parseSec2 : List Char → Option (Nat × List Char)
  | a :: b :: rest =>
    if a = '6' ∧ (b = '0' ∨ b = '1') then some (60 + digitVal b, rest)
    else if isDigitCh a ∧ digitVal a ≤ 5 ∧ isDigitCh b then
      some (digitVal a * 10 + digitVal b, rest)
    else if isDigitCh a then some (digitVal a, b :: rest)
    else none
  | [a] => if isDigitCh a then some (digitVal a, []) else none
  | [] => none

/-- `%z`: `Z`, or a sign, two hour digits, an optional colon and two optional
minute digits.  The result is a UTC offset in minutes (the parsed value is
always timezone-aware, exactly as CPython builds an aware `datetime`). -/
def parseZone : List Char → Option (Int × List Char)
  | 'Z' :: rest => some (0, rest)
  | c :: h1 :: h2 :: rest =>
    if (c = '+' ∨ c = '-') ∧ isDigitCh h1 ∧ isDigitCh h2 then
      let hh : Int := (digitVal h1 * 10 + digitVal h2 : Nat)
      let sign : Int := if c = '+' then 1 else -1
      match rest with
      | ':' :: m1 :: m2 :: r =>
        if isDigitCh m1 ∧ isDigitCh m2 then
          some (sign * (hh * 60 + (digitVal m1 * 10 + digitVal m2 : Nat)), r)
        else some (sign * hh * 60, ':' :: m1 :: m2 :: r)
      | m1 :: m2 :: r =>
        if isDigitCh m1 ∧ isDigitCh m2 then
          some (sign * (hh * 60 + (digitVal m1 * 10 + digitVal m2 : Nat)), r)
        else some (sign * hh * 60, m1 :: m2 :: r)
      | r => some (sign * hh * 60, r)
    else none
  | _ => none

def monthAbbrs : List (String × Nat) :=
  [("jan", 1), ("feb", 2), ("mar", 3), ("apr", 4), ("may", 5), ("jun", 6),
   ("jul", 7), ("aug", 8), ("sep", 9), ("oct", 10), ("nov", 11), ("dec", 12)]

/-- `%b`: a three-letter English month abbreviation, case-insensitive. -/
def parseMonthAbbr : List Char → Option (Nat × List Char)
  | a :: b :: c :: rest =>
    ((monthAbbrs.lookup (String.mk [lowerChar a, lowerChar b, lowerChar c])).map
      fun v => (v, rest))
  | _ => none

def weekdayAbbrs : List String := ["mon", "tue", "wed", "thu", "fri", "sat", "sun"]

/-- `%a`: a three-letter English weekday abbreviation, case-insensitive;
its value does not enter the resulting datetime. -/
def parseWeekdayAbbr : List Char → Option (List Char)
  | a :: b :: c :: rest =>
    if weekdayAbbrs.contains (String.mk [lowerChar a, lowerChar b, lowerChar c]) then
      some rest
    else none
  | _ => none

/-- Accumulated `strptime` fields, with CPython's defaults. -/
structure FmtAcc where
  y : Nat := 1900
  mo : Nat := 1
  d : Nat := 1
  h : Nat := 0
  mi : Nat := 0
  s : Nat := 0
  tz : Option Int := none

/-- Run a directive list against the input; the whole input must be consumed
(`strptime` raises on unconverted trailing data).  Literal letters match
case-insensitively, as CPython compiles its format regex with `IGNORECASE`. -/
def runFmt : List FmtDir → List Char → FmtAcc → Option FmtAcc
  | [], [], acc => some acc
  | [], _ :: _, _ => none
  | dir :: dirs, s, acc =>
    match dir with
    | .lit c =>
      match s with
      | c2 :: rest => if lowerChar c2 = lowerChar c then runFmt dirs rest acc else none
      | [] => none
    | .ws =>
      match s with
      | c2 :: rest =>
        if isSpaceCh c2 then runFmt dirs (rest.dropWhile isSpaceCh) acc else none
      | [] => none
    | .year4 => (parseYear4 s).bind fun p => runFmt dirs p.2 { acc with y := p.1 }
    | .month2 => (parseMonth2 s).bind fun p => runFmt dirs p.2 { acc with mo := p.1 }
    | .day2 => (parseDay2 s).bind fun p => runFmt dirs p.2 { acc with d := p.1 }
    | .hour2 => (parseHour2 s).bind fun p => runFmt dirs p.2 { acc with h := p.1 }
    | .minute2 => (parseMin2 s).bind fun p => runFmt dirs p.2 { acc with mi := p.1 }
    | .second2 => (parseSec2 s).bind fun p => runFmt dirs p.2 { acc with s := p.1 }
    | .zone => (parseZone s).bind fun p => runFmt dirs p.2 { acc with tz := some p.1 }
    | .monthAbbr => (parseMonthAbbr s).bind fun p => runFmt dirs p.2 { acc with mo := p.1 }
    | .weekdayAbbr => (parseWeekdayAbbr s).bind fun rest => runFmt dirs rest acc

/-- `datetime.strptime(s, fmt)`: run the format, then build (and validate)
the datetime. -/
def strptime (fmt : List FmtDir) (s : List Char) : Option PyDateTime :=
  (runFmt fmt s {}).bind fun acc => mkDatetime acc.y acc.mo acc.d acc.h acc.mi acc.s acc.tz

/-- The `date_formats` list of `NewsCollector._parse_date_string`
(lines 898-912), in order. -/
def date_formats : List (List FmtDir) :=
  [ [.year4, .lit '-', .month2, .lit '-', .day2, .ws, .hour2, .lit ':', .minute2, .lit ':', .second2],
    [.year4, .lit '-', .month2, .lit '-', .day2, .ws, .hour2, .lit ':', .minute2],
    [.year4, .lit '-', .month2, .lit '-', .day2],
    [.year4, .lit '.', .month2, .lit '.', .day2, .ws, .hour2, .lit ':', .minute2, .lit ':', .second2],
    [.year4, .lit '.', .month2, .lit '.', .day2, .ws, .hour2, .lit ':', .minute2],
    [.year4, .lit '.', .month2, .lit '.', .day2],
    [.year4, .lit '/', .month2, .lit '/', .day2, .ws, .hour2, .lit ':', .minute2, .lit ':', .second2],
    [.year4, .lit '/', .month2, .lit '/', .day2],
    [.year4, .lit '-', .month2, .lit '-', .day2, .lit 'T', .hour2, .lit ':', .minute2, .lit ':', .second2, .zone],
    [.year4, .lit '-', .month2, .lit '-', .day2, .lit 'T', .hour2, .lit ':', .minute2, .lit ':', .second2, .lit 'Z'],
    [.year4, .lit '-', .month2, .lit '-', .day2, .lit 'T', .hour2, .lit ':', .minute2, .lit ':', .second2],
    [.day2, .ws, .monthAbbr, .ws, .year4, .ws, .hour2, .lit ':', .minute2, .lit ':', .second2],
    [.weekdayAbbr, .lit ',', .ws, .day2, .ws, .monthAbbr, .ws, .year4, .ws, .hour2, .lit ':', .minute2, .lit ':', .second2] ]

def firstSome {α β : Type} (f : α → Option β) : List α → Option β
  | [] => none
  | x :: xs => match f x with | some v => some v | none => firstSome f xs

/-- `re.sub(r"[+-]\d{4}$", "", s)`: drop a trailing sign-plus-four-digit
numeric UTC offset. -/
def stripNumOffset (s : List Char) : List Char :=
  match s.reverse with
  | d1 :: d2 :: d3 :: d4 :: sgn :: rest =>
    if isDigitCh d1 ∧ isDigitCh d2 ∧ isDigitCh d3 ∧ isDigitCh d4 ∧ (sgn = '+' ∨ sgn = '-')
    then rest.reverse else s
  | _ => s

/-- `re.sub(r"\s+\w{3,4}$", "", s)`: drop a trailing 3-4 word-character zone
abbreviation preceded by whitespace (KST, GMT, ...). -/
def stripZoneAbbr (s : List Char) : List Char :=
  let r := s.reverse
  let w := r.takeWhile isWordCh
  if w.length = 3 ∨ w.length = 4 then
    let r2 := r.drop w.length
    let sp := r2.takeWhile isSpaceCh
    if 1 ≤ sp.length then (r2.drop sp.length).reverse else s
  else s

/-- Python `str.strip()`. -/
def pyStrip (s : List Char) : List Char :=
  ((s.dropWhile isSpaceCh).reverse.dropWhile isSpaceCh).reverse

/-- `NewsCollector._parse_date_string` (lines 887-937).  `parsedate` models the
external `email.utils.parsedate_to_datetime` (its exceptions are `none`). -/
def parse_date_string (parsedate : String → Option PyDateTime)
    (date_str : String) : Option PyDateTime :=
  if date_str = "" then none
  else
    let s := pyStrip date_str.data
    match firstSome (fun f => strptime f s) date_formats with
    | some d => some d
    | none =>
      let clean := pyStrip (stripZoneAbbr (stripNumOffset s))
      match firstSome (fun f => strptime f clean) date_formats with
      | some d => some d
      | none => parsedate (String.mk s)

/-- A feed entry's date-bearing fields, as `_parse_date` consults them; a
missing attribute and a `None` value are both `none`, and
`*_parsed` carries the first six components of a `time.struct_time`. -/
structure FeedEntry where
  published : Option String
  published_parsed : Option (Nat × Nat × Nat × Nat × Nat × Nat)
  updated : Option String
  updated_parsed : Option (Nat × Nat × Nat × Nat × Nat × Nat)
  dc_date : Option String

/-- Python truthiness gate for an optional string field. -/
def truthyStr : Option String → Option String
  | some s => if s = "" then none else some s
  | none => none

/-- `datetime(*t[:6])` on a parsed time tuple. -/
def tupleDatetime : Nat × Nat × Nat × Nat × Nat × Nat → Option PyDateTime
  | (y, mo, d, h, mi, s) => mkDatetime y mo d h mi s none

/-- `NewsCollector._parse_date` (lines 847-885): candidate fields in priority
order, falling back to `datetime.now()` (the `now` parameter). -/
def parse_date (now : PyDateTime) (parsedate : String → Option PyDateTime)
    (entry : FeedEntry) : PyDateTime :=
  let c1 := (truthyStr entry.published).bind (parse_date_string parsedate)
  let c2 := entry.published_parsed.bind tupleDatetime
  let c3 := (truthyStr entry.updated).bind (parse_date_string parsedate)
  let c4 := entry.updated_parsed.bind tupleDatetime
  let c5 := (truthyStr entry.dc_date).bind (parse_date_string parsedate)
  ((((c1.orElse fun _ => c2).orElse fun _ => c3).orElse fun _ => c4).orElse
    fun _ => c5).getD now

/-- The date attached to a news item by `NewsCollector.collect_news`
(lines 811-815): `_parse_date`, then `replace(tzinfo=None)` whenever the
result is aware. -/
def collect_news_pub_date (now : PyDateTime) (parsedate : String → Option PyDateTime)
    (entry : FeedEntry) : PyDateTime :=
  let pub := parse_date now parsedate entry
  if pub.tz ≠ none then { pub with tz := none } else pub

/-- C2 counterexample: on the raw candidate `"2025-12-25T10:00:00+0900"` the
value returned by `_parse_date` still carries the zone (UTC offset +540
minutes): the zone is not stripped inside the date parser itself. -/
theorem c2_parse_date_aware :
    (parse_date ⟨2025, 1, 1, 0, 0, 0, none⟩ (fun _ => none)
      ⟨some "2025-12-25T10:00:00+0900", none, none, none, none⟩).tz = some 540 := by
  decide

/-- C2 amended: `_parse_date` may return an aware datetime (see
`c2_parse_date_aware`), but `collect_news` immediately strips — never
converts — any zone information: the date attached to every news item is
timezone-naive and agrees field-by-field with the parser's result. -/
theorem c2_collect_news_naive (now : PyDateTime)
    (parsedate : String → Option PyDateTime) (entry : FeedEntry) :
    (collect_news_pub_date now parsedate entry).tz = none ∧
    (collect_news_pub_date now parsedate entry).year = (parse_date now parsedate entry).year ∧
    (collect_news_pub_date now parsedate entry).month = (parse_date now parsedate entry).month ∧
    (collect_news_pub_date now parsedate entry).day = (parse_date now parsedate entry).day ∧
    (collect_news_pub_date now parsedate entry).hour = (parse_date now parsedate entry).hour ∧
    (collect_news_pub_date now parsedate entry).minute = (parse_date now parsedate entry).minute ∧
    (collect_news_pub_date now parsedate entry).second = (parse_date now parsedate entry).second := by
  unfold collect_news_pub_date
  cases h : (parse_date now parsedate entry).tz <;> simp [h]

/-! ## Article-body scraping — _scrape_article / _clean_article_content /
_get_content (claims C1, C4) -/

/-- Python slice `s[:n]`. -/
def strTake (s : String) (n : Nat) : String := String.mk (s.data.take n)

/-- The remainder of `s` after the first occurrence of `pat`
(`none` when `pat` does not occur). -/
def afterSub (pat : List Char) : List Char → Option (List Char)
  | [] => if pat.isPrefixOf [] then some [] else none
  | c :: t =>
    if pat.isPrefixOf (c :: t) then some ((c :: t).drop pat.length)
    else afterSub pat t

/-- `re.search(r"^pre\s*$", line)`. -/
def matchPrefixAllSpace (pre s : List Char) : Bool :=
  pre.isPrefixOf s && (s.drop pre.length).all isSpaceCh

/-- The `skip_patterns` tests of `NewsCollector._clean_article_content`
(lines 1090-1133), applied to one stripped line; every pattern is translated
from its `re.search(..., re.IGNORECASE)` (case folding only matters for the
ASCII-letter patterns, which test the lowered line). -/
def shouldSkipLine (line : List Char) : Bool :=
  let low := line.map lowerChar
  let p1 := matchPrefixAllSpace "좋아요".data line
  let p2 := !(line.takeWhile isDigitCh).isEmpty && (line.dropWhile isDigitCh).all isSpaceCh
  let p3 := matchPrefixAllSpace "관련기사".data line
  let p4 := "다른기사".data.isPrefixOf line &&
            "보기".data.isPrefixOf ((line.drop 4).dropWhile isSpaceCh)
  let p5 := matchPrefixAllSpace "키워드".data line
  let p6 := match line with
            | '#' :: c :: _ => isWordCh c
            | _ => false
  let p7 := "저작권자".data.isPrefixOf line
  let p8 := hasSub "무단전재".data line
  let p9 := match afterSub "재배포".data line with
            | some r => hasSub "금지".data r
            | none => false
  let p10 := line == "기자".data
  let p11 := match afterSub ['@'] low with
             | some r => hasSub ".com".data r
             | none => false
  let p12 := "news@".data.isPrefixOf low
  let p13 := match line.reverse with
             | ja :: gi :: rest =>
               ja = '자' && gi = '기' && !rest.isEmpty && rest.all fun c => !isSpaceCh c
             | _ => false
  let p14 := match line with | '▶' :: _ => true | _ => false
  let p15 := match line with | '☞' :: _ => true | _ => false
  let p16 := "[관련기사]".data.isPrefixOf line
  let p17 := (match line with | '[' :: _ => true | _ => false) &&
             ("기자]".data.reverse).isPrefixOf line.reverse && 4 ≤ line.length
  let p18 := "사진=".data.isPrefixOf line
  let p19 := "(사진=".data.isPrefixOf line
  let p20 := "출처=".data.isPrefixOf line
  let p21 := "(출처=".data.isPrefixOf line
  let p22 := match line with | 'ⓒ' :: _ => true | _ => false
  let p23 := match line with | '©' :: _ => true | _ => false
  let p24 := "copyrights".data.isPrefixOf low
  let p25 := match afterSub "ai학습".data low with
             | some r => hasSub "금지".data r
             | none => false
  let p26 := hasSub "뉴스제공".data line
  p1 || p2 || p3 || p4 || p5 || p6 || p7 || p8 || p9 || p10 || p11 || p12 || p13 ||
    p14 || p15 || p16 || p17 || p18 || p19 || p20 || p21 || p22 || p23 || p24 ||
    p25 || p26

/-- Python `content.split("\n")` (keeps empty pieces). -/
def splitOnNl : List Char → List (List Char)
  | [] => [[]]
  | '\n' :: t => [] :: splitOnNl t
  | c :: t =>
    match splitOnNl t with
    | [] => [[c]]
    | l :: ls => (c :: l) :: ls

/-- `NewsCollector._clean_article_content` (lines 1079-1140): strip each line,
drop empty lines, lines under 3 characters and boilerplate lines, re-join with
blank-line separation. -/
def clean_article_content (content : String) : String :=
  if content = "" then ""
  else
    let cleaned := (splitOnNl content.data).filterMap fun l =>
      let l := pyStrip l
      if l.isEmpty then none
      else if l.length < 3 then none
      else if shouldSkipLine l then none
      else some l
    String.mk (List.intercalate "\n\n".data cleaned)

/-- The selector loop of `NewsCollector._scrape_article` (lines 1053-1064):
`content` starts as `None`; each selector that matches an element overwrites
it with that element's noise-removed text; the loop breaks early when that
text is nonempty and longer than 200 characters.  Each input entry is the
cleaned text of one selector's match (`none` when the selector matched no
element). -/
def selectorScan : Option String → List (Option String) → Option String
  | acc, [] => acc
  | acc, none :: rest => selectorScan acc rest
  | _, some t :: rest =>
    if t ≠ "" ∧ 200 < t.length then some t else selectorScan (some t) rest

/-- The body produced by `NewsCollector._scrape_article` (lines 1066-1069):
when the loop left a truthy `content`, clean it and keep the first 8000
characters; otherwise the scraped body is empty. -/
def scrape_article_content (selTexts : List (Option String)) : String :=
  match selectorScan none selTexts with
  | some c => if c ≠ "" then strTake (clean_article_content c) 8000 else ""
  | none => ""

/-- The body chosen by `NewsCollector._get_content` (lines 956-973):
`baseline` models `_strip_html(rss_content)`; the scraped body wins only when
it is truthy and strictly longer than the baseline. -/
def get_content_body (link baseline : String) (selTexts : List (Option String)) : String :=
  if link ≠ "" then
    if scrape_article_content selTexts ≠ "" ∧
        baseline.length < (scrape_article_content selTexts).length
    then scrape_article_content selTexts else baseline
  else baseline

def c1Baseline : String := String.mk (List.replicate 8001 'a')

/-- C1 counterexample: the 8000-character truncation is applied only to the
scraped body, not to the final body: with a feed baseline of 8001 characters
and no scraped text, `_get_content` returns a body of 8001 characters. -/
theorem c1_body_exceeds_8000 :
    8000 < (get_content_body "http://a" c1Baseline []).length := by
  have h : get_content_body "http://a" c1Baseline [] = c1Baseline := by
    simp [get_content_body, scrape_article_content, selectorScan]
  rw [h]
  show 8000 < (List.replicate 8001 'a').length
  rw [List.length_replicate]
  omega

/-- C1 amended: the final body is the longer of the baseline and the cleaned
scraped body — it equals the scraped body exactly when the link is nonempty
and the scraped body is strictly longer than the baseline, and equals the
baseline otherwise (ties favour the baseline; the truthiness guard on the
scraped body is subsumed by the length comparison).  The 8000-character
truncation is applied to the scraped body only; hence the final body never
exceeds `max (baseline length) 8000` characters, and can exceed 8000 only
when the baseline does. -/
theorem c1_body_choice (link baseline : String) (selTexts : List (Option String)) :
    (get_content_body link baseline selTexts =
      if link ≠ "" ∧ baseline.length < (scrape_article_content selTexts).length
      then scrape_article_content selTexts
      else baseline) ∧
    (scrape_article_content selTexts).length ≤ 8000 ∧
    (get_content_body link baseline selTexts).length ≤ max baseline.length 8000 := by
  have hsc : (scrape_article_content selTexts).length ≤ 8000 := by
    unfold scrape_article_content
    cases selectorScan none selTexts with
    | none => simp
    | some c =>
      dsimp only
      split
      · show (strTake (clean_article_content c) 8000).data.length ≤ 8000
        simp only [strTake]
        rw [List.length_take]
        exact min_le_left _ _
      · simp
  refine ⟨?_, hsc, ?_⟩
  · unfold get_content_body
    by_cases hlink : link ≠ ""
    · rw [if_pos hlink]
      by_cases hlt : baseline.length < (scrape_article_content selTexts).length
      · have hne : scrape_article_content selTexts ≠ "" := by
          intro he
          have h0 : ("" : String).length = 0 := rfl
          rw [he, h0] at hlt
          exact absurd hlt (Nat.not_lt_zero _)
        rw [if_pos ⟨hne, hlt⟩, if_pos ⟨hlink, hlt⟩]
      · rw [if_neg (fun hc => hlt hc.2), if_neg (fun hc => hlt hc.2)]
    · rw [if_neg hlink, if_neg (fun hc => hlink hc.1)]
  · unfold get_content_body
    split
    · split
      · exact le_trans hsc (le_max_right _ _)
      · exact le_max_left _ _
    · exact le_max_left _ _

/-- C4 counterexample: a single selector matching a 4-character text — well
under the 200-character guard — still produces a scraped body, and the caller
adopts it instead of keeping the baseline. -/
theorem c4_short_text_accepted :
    (∀ t ∈ ([some "abcd"] : List (Option String)), (t.getD "").length ≤ 200) ∧
    scrape_article_content [some "abcd"] = "abcd" ∧
    get_content_body "http://a" "" [some "abcd"] = "abcd" :=
  ⟨by decide, by decide, by decide⟩

/-- The last selector text that matched an element. -/
def lastMatched : List (Option String) → Option String
  | [] => none
  | some t :: rest =>
    (match lastMatched rest with
     | some u => some u
     | none => some t)
  | none :: rest => lastMatched rest

theorem selectorScan_all_short (texts : List (Option String)) (acc : Option String)
    (hall : ∀ t ∈ texts, (t.getD "").length ≤ 200) :
    selectorScan acc texts =
      (match lastMatched texts with
       | some u => some u
       | none => acc) := by
  induction texts generalizing acc with
  | nil => rfl
  | cons hd rest ih =>
    cases hd with
    | none =>
      show selectorScan acc rest = _
      rw [ih acc fun t ht => hall t (List.mem_cons_of_mem _ ht)]
      rfl
    | some t =>
      have ht : t.length ≤ 200 := by
        simpa using hall (some t) (List.mem_cons_self _ _)
      show (if t ≠ "" ∧ 200 < t.length then some t else selectorScan (some t) rest) = _
      rw [if_neg fun hcond => absurd hcond.2 (by omega)]
      rw [ih (some t) fun u hu => hall u (List.mem_cons_of_mem _ hu)]
      show _ = (match lastMatched (some t :: rest) with
                | some u => some u
                | none => acc)
      cases h : lastMatched rest <;> simp [lastMatched, h]

/-- C4 amended: the 200-character guard only stops the selector search early;
when every matched selector text is 200 characters or shorter, the text of the
*last* selector that matched still becomes the scraped body (cleaned and
truncated) — the caller keeps the baseline only when no selector matched an
element at all, or the matched text was empty. -/
theorem c4_last_match_leaks (texts : List (Option String))
    (hall : ∀ t ∈ texts, (t.getD "").length ≤ 200) :
    scrape_article_content texts =
      (match lastMatched texts with
       | some t => if t ≠ "" then strTake (clean_article_content t) 8000 else ""
       | none => "") := by
  unfold scrape_article_content
  rw [selectorScan_all_short texts none hall]
  cases lastMatched texts <;> rfl

/-- Closed instance of `c4_last_match_leaks`: with matched texts
`["ab", "hello"]`, both short, the scraped body is `"hello"`. -/
theorem c4_last_match_leaks_witness :
    scrape_article_content [some "ab", none, some "hello"] = "hello" := by
  rw [c4_last_match_leaks [some "ab", none, some "hello"] (by decide)]
  decide

/-! ## Orchestrator per-item ordering — AINewsBot.run (claim C3) -/

/-- The externally visible steps `AINewsBot.run` performs for one news item. -/
inductive RunEvent
  | notionDedupeCheck
  | classify
  | notionWrite
  | archiveDedupeCheck
  | archiveWrite
deriving DecidableEq

/-- The event trace of one iteration of the loop in `AINewsBot.run`
(lines 1637-1733): a remote-sink (Notion) dedupe check first (unless
`no_notion`), skipping the item when duplicate; then classification
(`analyze_news` or `_fallback_analysis` — both classify); then the relevance
filter; then the remote write and the archive save, whose `save_news` performs
its own dedupe check before writing. -/
def itemEvents (noNotion notionDup relevant archiveDup : Bool) : List RunEvent :=
  let sinkWrites :=
    (if !noNotion then [RunEvent.notionWrite] else []) ++
      [RunEvent.archiveDedupeCheck] ++
      (if archiveDup then [] else [RunEvent.archiveWrite])
  let afterDedupe := RunEvent.classify :: (if relevant then sinkWrites else [])
  if !noNotion then
    RunEvent.notionDedupeCheck :: (if notionDup then [] else afterDedupe)
  else afterDedupe

/-- Every occurrence of `a` precedes every occurrence of `b` in the trace. -/
def orderedPair (es : List RunEvent) (a b : RunEvent) : Prop :=
  ∀ i j : Fin es.length, es.get i = a → es.get j = b → (i : Nat) < (j : Nat)

instance (es : List RunEvent) (a b : RunEvent) : Decidable (orderedPair es a b) := by
  unfold orderedPair
  infer_instance

/-- Classification precedes every dedupe check of the same item. -/
def classifyBeforeAllDedupe (es : List RunEvent) : Prop :=
  orderedPair es RunEvent.classify RunEvent.notionDedupeCheck ∧
    orderedPair es RunEvent.classify RunEvent.archiveDedupeCheck

instance (es : List RunEvent) : Decidable (classifyBeforeAllDedupe es) := by
  unfold classifyBeforeAllDedupe
  infer_instance

/-- C3 counterexample: in the default configuration (Notion enabled, item not
a Notion duplicate) the remote-sink dedupe check happens *before*
classification, so classification does not precede every dedupe check. -/
theorem c3_dedupe_before_classify :
    ¬ classifyBeforeAllDedupe (itemEvents false false true false) := by decide

/-- C3 amended: per item the loop runs remote dedupe check, then
classification, then the relevance filter, then the remote write and the
archive dedupe check and archive write: classification follows the remote
dedupe check but precedes the archive dedupe check and both writes, and the
archive write follows its dedupe check. -/
theorem c3_item_order (noNotion notionDup relevant archiveDup : Bool) :
    orderedPair (itemEvents noNotion notionDup relevant archiveDup)
      RunEvent.notionDedupeCheck RunEvent.classify ∧
    orderedPair (itemEvents noNotion notionDup relevant archiveDup)
      RunEvent.classify RunEvent.archiveDedupeCheck ∧
    orderedPair (itemEvents noNotion notionDup relevant archiveDup)
      RunEvent.classify RunEvent.notionWrite ∧
    orderedPair (itemEvents noNotion notionDup relevant archiveDup)
      RunEvent.classify RunEvent.archiveWrite ∧
    orderedPair (itemEvents noNotion notionDup relevant archiveDup)
      RunEvent.archiveDedupeCheck RunEvent.archiveWrite := by
  cases noNotion <;> cases notionDup <;> cases relevant <;> cases archiveDup <;> decide

/-- Closed instance of `c3_item_order` on the default configuration. -/
theorem c3_item_order_witness :
    orderedPair (itemEvents false false true false)
      RunEvent.notionDedupeCheck RunEvent.classify :=
  (c3_item_order false false true false).1

/-! ## The markdown archive — MarkdownArchive (claims C5, C6, C7, C10)

The file system is an association list from paths (component lists) to file
contents; directories are implicit in the paths, so `os.makedirs` is a no-op
of the model. -/

abbrev FsPath := List String

abbrev Fs := List (FsPath × String)

def fsRead (fs : Fs) (p : FsPath) : Option String :=
  match fs with
  | [] => none
  | (q, c) :: rest => if q = p then some c else fsRead rest p

def fsWrite (fs : Fs) (p : FsPath) (c : String) : Fs :=
  match fs with
  | [] => [(p, c)]
  | (q, c0) :: rest => if q = p then (q, c) :: rest else (q, c0) :: fsWrite rest p c

def fsExists (fs : Fs) (p : FsPath) : Bool := (fsRead fs p).isSome

/-- The child name of `p` inside directory `dir`, when `p` lies below `dir`. -/
def childOf (dir p : FsPath) : Option String :=
  match dir, p with
  | [], x :: _ => some x
  | d :: ds, x :: xs => if x = d then childOf ds xs else none
  | _, [] => none

/-- `os.listdir(dir)` of the model: first-level names below `dir`, in
first-appearance order, without duplicates. -/
def childNames (fs : Fs) (dir : FsPath) : List String :=
  (fs.filterMap fun e => childOf dir e.1).dedup

/-- `os.path.isdir`: some entry lies strictly below `p`. -/
def isDirB (fs : Fs) (p : FsPath) : Bool :=
  fs.any fun e => p.isPrefixOf e.1 && p.length < e.1.length

/-- Decimal digit character. -/
def digitChar (n : Nat) : Char :=
  if n = 0 then '0' else if n = 1 then '1' else if n = 2 then '2'
  else if n = 3 then '3' else if n = 4 then '4' else if n = 5 then '5'
  else if n = 6 then '6' else if n = 7 then '7' else if n = 8 then '8' else '9'

/-- Decimal rendering of a natural number (Python `str(n)`), driven by a fuel
that always suffices (`n + 1` at the top call). -/
def natToCharsFuel : Nat → Nat → List Char → List Char
  | 0, _, acc => acc
  | fuel + 1, n, acc =>
    if n < 10 then digitChar n :: acc
    else natToCharsFuel fuel (n / 10) (digitChar (n % 10) :: acc)

def natStr (n : Nat) : String := String.mk (natToCharsFuel (n + 1) n [])

/-- Python `f"{n:02d}"`. -/
def pad2 (n : Nat) : String := if n < 10 then "0" ++ natStr n else natStr n

/-- `strftime("%Y")`: four-digit zero-padded year. -/
def pad4 (n : Nat) : String :=
  if n < 10 then "000" ++ natStr n
  else if n < 100 then "00" ++ natStr n
  else if n < 1000 then "0" ++ natStr n
  else natStr n

/-- A news record as `save_news` consumes it. -/
structure NewsItem where
  title : String
  link : String
  content : String
  date : String
  source : String

/-- An analysis record as `_format_news` consumes it (each field read through
`dict.get` with a default, hence optional). -/
structure Analysis where
  summary : Option String
  key_points : Option (List String)
  technologies : Option (List String)
  organization : Option String
  importance : Option String

/-- Consume `\d{1,2}` followed by the literal `c` (with regex backtracking:
two digits then `c`, else one digit then `c`). -/
def digitsThen (c : Char) : List Char → Option (List Char)
  | a :: b :: rest =>
    if isDigitCh a ∧ isDigitCh b then
      match rest with
      | k :: r => if k = c then some r else none
      | [] => none
    else if isDigitCh a ∧ b = c then some rest
    else none
  | _ => none

/-- `re.sub(r"^\[\d{1,2}월\d{1,2}일\]\s*", "", s)`. -/
def stripDateTag1 (s : List Char) : List Char :=
  match s with
  | '[' :: rest =>
    match digitsThen '월' rest with
    | some r1 =>
      match digitsThen '일' r1 with
      | some r2 =>
        match r2 with
        | ']' :: r3 => r3.dropWhile isSpaceCh
        | _ => s
      | none => s
    | none => s
  | _ => s

/-- `re.sub(r"^\[\d{4}\.\d{2}\.\d{2}\]\s*", "", s)`. -/
def stripDateTag2 (s : List Char) : List Char :=
  match s with
  | '[' :: y1 :: y2 :: y3 :: y4 :: '.' :: m1 :: m2 :: '.' :: d1 :: d2 :: ']' :: rest =>
    if isDigitCh y1 ∧ isDigitCh y2 ∧ isDigitCh y3 ∧ isDigitCh y4 ∧ isDigitCh m1 ∧
        isDigitCh m2 ∧ isDigitCh d1 ∧ isDigitCh d2
    then rest.dropWhile isSpaceCh else s
  | _ => s

/-- Python `"\n".join(lines)` over character lists. -/
def joinNl : List (List Char) → List Char
  | [] => []
  | [l] => l
  | l :: ls => l ++ '\n' :: joinNl ls

/-- The `lines` list assembled by `MarkdownArchive._format_news`
(lines 1427-1490). -/
def format_news_lines (news : NewsItem) (analysis : Analysis) : List String :=
  let clean_title := String.mk (stripDateTag2 (stripDateTag1 news.title.data))
  let importance := analysis.importance.getD "📌 일반"
  let org := analysis.organization.getD "기타"
  let techs := String.mk (List.intercalate ", ".data
    ((analysis.technologies.getD []).map String.data))
  let summary := analysis.summary.getD ""
  let kps := analysis.key_points.getD []
  ["### " ++ clean_title, ""] ++
    ["> 📅 **" ++ news.date ++ "** | **" ++ importance ++ "** | " ++ org ++
      " | " ++ news.source] ++
    (if techs ≠ "" then ["> 🏷️ " ++ techs] else []) ++
    [""] ++
    (if summary ≠ "" then ["**💡 요약**", summary, ""] else []) ++
    (if kps ≠ [] then
      ["**📌 핵심 포인트**"] ++ (kps.take 5).map (fun p => "- " ++ p) ++ [""]
     else []) ++
    (if news.content ≠ "" then
      ["<details>", "<summary><b>📄 원문 보기</b></summary>", "",
       String.mk (pyStrip (news.content.data.take 1500)) ++
         (if 1500 < news.content.length then "..." else ""),
       "", "</details>", ""]
     else []) ++
    ["🔗 [원문 보기](" ++ news.link ++ ")", "", "---", ""]

/-- `MarkdownArchive._format_news` (lines 1427-1492): the lines joined by
`"\n".join(lines)`. -/
def format_news (news : NewsItem) (analysis : Analysis) : String :=
  String.mk (joinNl ((format_news_lines news analysis).map String.data))

/-- `MarkdownArchive._is_duplicate` (lines 1411-1425): the file exists and
contains the title or the link as a literal substring. -/
def is_duplicate (fs : Fs) (p : FsPath) (title link : String) : Bool :=
  match fsRead fs p with
  | none => false
  | some content => pyIn title content || pyIn link content

/-- Does `c` survive `re.sub(r"[^\w\s가-힣-]", "", ...)`? -/
def anchorKeep (c : Char) : Bool := isWordCh c || isSpaceCh c || c = '-'

/-- `re.sub(r"\s+", "-", s)`: each maximal whitespace run becomes one hyphen. -/
def collapseWsAux : Bool → List Char → List Char
  | _, [] => []
  | inRun, c :: t =>
    if isSpaceCh c then
      (if inRun then collapseWsAux true t else '-' :: collapseWsAux true t)
    else c :: collapseWsAux false t

def dropEdgeHyphens (s : List Char) : List Char :=
  ((s.dropWhile fun c => c == '-').reverse.dropWhile fun c => c == '-').reverse

/-- `MarkdownArchive._create_anchor` (lines 1570-1581). -/
def create_anchor (title : String) : String :=
  String.mk (dropEdgeHyphens (collapseWsAux false
    ((title.data.map lowerChar).filter anchorKeep)))

def tocStartMark : List Char := "<!-- TOC_START -->".data

def tocEndMark : List Char := "<!-- TOC_END -->".data

/-- `re.match(r"### ([^#\n].+)", line)`: the captured entry title of a daily
file's line in `_update_toc`. -/
def tocTitleOf (line : List Char) : Option (List Char) :=
  match line with
  | '#' :: '#' :: '#' :: ' ' :: c :: rest =>
    if c ≠ '#' ∧ 1 ≤ rest.length then some (c :: rest) else none
  | _ => none

/-- One numbered table-of-contents line of `_update_toc`. -/
def tocLine (i : Nat) (title : List Char) : List Char :=
  let display := if 60 < title.length then title.take 60 ++ "...".data else title
  (natStr i).data ++ ". [".data ++ display ++ "](#".data ++
    (create_anchor (String.mk title)).data ++ [')']

def numberFrom (i : Nat) : List (List Char) → List (List Char)
  | [] => []
  | t :: ts => tocLine i t :: numberFrom (i + 1) ts

/-- The replacement text between the TOC markers. -/
def tocBlockContent (content : List Char) : List Char :=
  let entries := (splitOnNl content).filterMap tocTitleOf
  if entries.isEmpty then "(뉴스 없음)".data
  else List.intercalate ['\n'] (numberFrom 1 entries)

/-- First index at which `pat` starts in the list. -/
def findIdxOf (pat : List Char) : List Char → Option Nat
  | [] => if pat.isPrefixOf [] then some 0 else none
  | c :: t =>
    if pat.isPrefixOf (c :: t) then some 0
    else (findIdxOf pat t).map (· + 1)

/-- `re.sub(r"<!-- TOC_START -->.*?<!-- TOC_END -->", repl, s, flags=DOTALL)`:
replace every region from a start marker to the nearest following end marker,
scanning left to right.  The fuel (the input length at the top call) bounds
the number of replaced regions, each of which consumes at least the two
markers. -/
def replTocAux (toc : List Char) : Nat → List Char → List Char
  | 0, s => s
  | fuel + 1, s =>
    match findIdxOf tocStartMark s with
    | none => s
    | some i =>
      let rest := s.drop (i + tocStartMark.length)
      match findIdxOf tocEndMark rest with
      | none => s
      | some j =>
        s.take i ++ tocStartMark ++ '\n' :: toc ++ '\n' :: tocEndMark ++
          replTocAux toc fuel (rest.drop (j + tocEndMark.length))

def replaceTocRegions (toc s : List Char) : List Char := replTocAux toc s.length s

/-- `MarkdownArchive._update_toc` (lines 1524-1568). -/
def update_toc (fs : Fs) (p : FsPath) : Fs :=
  match fsRead fs p with
  | none => fs
  | some content =>
    fsWrite fs p (String.mk (replaceTocRegions (tocBlockContent content.data) content.data))

/-- The replacement template handed to `re.sub` by `_update_toc` (line 1561):
the marker pair around the rendered TOC.  `replTocAux` splices exactly this
text at every matched region, which matches CPython's template expansion
precisely when the template contains no backslash (a backslash before an
ASCII letter or digit instead raises `re.error`, and the recognised escapes
would be expanded). -/
def tocTemplate (content : List Char) : List Char :=
  tocStartMark ++ '\n' :: tocBlockContent content ++ '\n' :: tocEndMark

/-- `strftime("%Y년 %m월 %d일")`. -/
def dateTitle (d : PyDateTime) : String :=
  pad4 d.year ++ "년 " ++ pad2 d.month ++ "월 " ++ pad2 d.day ++ "일"

/-- The fixed header written when a daily file is created
(`_append_to_file`, lines 1499-1508). -/
def newFileHeader (dt : String) : String :=
  "# 🤖 AI 뉴스 - " ++ dt ++ "\n\n" ++ "## 📑 목차\n\n" ++
    "<!-- TOC_START -->\n" ++ "<!-- TOC_END -->\n\n" ++ "---\n\n"

def pyRstrip (s : List Char) : List Char := (s.reverse.dropWhile isSpaceCh).reverse

/-- `MarkdownArchive._append_to_file` (lines 1494-1522). -/
def append_to_file (fs : Fs) (p : FsPath) (content : String) (news_date : PyDateTime) : Fs :=
  match fsRead fs p with
  | none => update_toc (fsWrite fs p (newFileHeader (dateTitle news_date) ++ content)) p
  | some existing =>
    update_toc (fsWrite fs p (String.mk (pyRstrip existing.data) ++ "\n\n" ++ content)) p

/-- Split on a separator character, keeping empty pieces (Python `split`). -/
def splitOnCh (sep : Char) : List Char → List (List Char)
  | [] => [[]]
  | c :: t =>
    if c = sep then [] :: splitOnCh sep t
    else
      match splitOnCh sep t with
      | [] => [[c]]
      | l :: ls => (c :: l) :: ls

/-- Python `s.replace(pat, "")`: drop every non-overlapping occurrence,
left to right (fuel-driven; the input length suffices). -/
def pyRemoveAll (pat : List Char) : Nat → List Char → List Char
  | 0, s => s
  | _ + 1, [] => []
  | fuel + 1, c :: t =>
    if !pat.isEmpty && pat.isPrefixOf (c :: t) then
      pyRemoveAll pat fuel ((c :: t).drop pat.length)
    else c :: pyRemoveAll pat fuel t

/-- Python `int(s)` on a plain digit string. -/
def toNatDigits (s : List Char) : Option Nat :=
  if !s.isEmpty && s.all isDigitCh then
    some (s.foldl (fun acc c => acc * 10 + digitVal c) 0)
  else none

/-- Code-point comparison of strings (Python `<` on `str`). -/
def strLtB : List Char → List Char → Bool
  | [], [] => false
  | [], _ :: _ => true
  | _ :: _, [] => false
  | x :: xs, y :: ys => if x = y then strLtB xs ys else decide (x < y)

def insertDesc (x : String) : List String → List String
  | [] => [x]
  | y :: ys => if strLtB y.data x.data then x :: y :: ys else y :: insertDesc x ys

/-- `sorted(names, reverse=True)`. -/
def sortDescStr : List String → List String
  | [] => []
  | x :: xs => insertDesc x (sortDescStr xs)

def endsWithStr (suf s : String) : Bool := suf.data.reverse.isPrefixOf s.data.reverse

/-- The daily files `_update_monthly_index` iterates (lines 1357-1361):
the month directory's listing, newest name first, keeping `*.md` except
`README.md`. -/
def dailyFileNames (fs : Fs) (dir : FsPath) : List String :=
  (sortDescStr (childNames fs dir)).filter fun f =>
    endsWithStr ".md" f && f != "README.md"

/-- The heading scan `re.findall(r"^### (?!📑)(.+)", content, re.MULTILINE)`
of `_update_monthly_index` (line 1382). -/
def monthHeadTitleOf (line : List Char) : Option (List Char) :=
  match line with
  | '#' :: '#' :: '#' :: ' ' :: c :: rest =>
    if c ≠ '📑' then some (c :: rest) else none
  | _ => none

def newsTitlesIn (content : String) : List (List Char) :=
  (splitOnNl content.data).filterMap monthHeadTitleOf

/-- `f"{int(m)}월 {int(d)}일"` display of a day name, falling back to the raw
name when it does not split into two integers (lines 1371-1376). -/
def displayDateOf (day_name : List Char) : List Char :=
  match splitOnCh '-' day_name with
  | [mStr, dStr] =>
    match toNatDigits mStr, toNatDigits dStr with
    | some m, some d => (natStr m).data ++ "월 ".data ++ (natStr d).data ++ "일".data
    | _, _ => day_name
  | _ => day_name

/-- The table-of-contents block and entry count one daily file contributes to
the monthly index (lines 1367-1392). -/
def dailySection (fs : Fs) (dir : FsPath) (daily_file : String) : List (List Char) × Nat :=
  let day_name := pyRemoveAll ".md".data daily_file.data.length daily_file.data
  let display_date := displayDateOf day_name
  let content := (fsRead fs (dir ++ [daily_file])).getD ""
  let titles := newsTitlesIn content
  let head1 := '\n' :: "### 📅 ".data ++ display_date ++ " (".data ++
    (natStr titles.length).data ++ "건)".data
  let head2 := "📄 [".data ++ day_name ++ ".md](./".data ++ daily_file.data ++ ")\n".data
  let titleLines := titles.map fun t =>
    "- ".data ++ (if 50 < t.length then t.take 50 ++ "...".data else t)
  (head1 :: head2 :: titleLines, titles.length)

/-- `strftime("%Y년 %m월")`. -/
def monthTitle (d : PyDateTime) : String := pad4 d.year ++ "년 " ++ pad2 d.month ++ "월"

/-- The README document and the total count `_update_monthly_index` computes
(lines 1357-1406). -/
def buildMonthIndex (fs : Fs) (dir : FsPath) (month_title : String) : String × Nat :=
  let acc := (dailyFileNames fs dir).foldl
    (fun (acc : List (List Char) × Nat) f =>
      let sec := dailySection fs dir f
      (acc.1 ++ sec.1, acc.2 + sec.2))
    ([], 0)
  let body := "# 🤖 AI 뉴스 아카이브 - ".data ++ month_title.data ++
    "\n\n> 총 **".data ++ (natStr acc.2).data ++
    "건**의 뉴스가 수집되었습니다.\n\n## 📑 목차\n\n".data ++
    (acc.1.foldr (fun line k => '\n' :: line ++ k) []) ++
    "\n\n---\n\n*이 파일은 자동으로 생성됩니다.*\n".data
  (String.mk body, acc.2)

/-- `MarkdownArchive._update_monthly_index` (lines 1350-1409). -/
def update_monthly_index (fs : Fs) (dir : FsPath) (news_date : PyDateTime) : Fs :=
  fsWrite fs (dir ++ ["README.md"]) (buildMonthIndex fs dir (monthTitle news_date)).1

/-- `datetime.strptime(news["date"], "%Y-%m-%d")`. -/
def fmtYmd : List FmtDir := [.year4, .lit '-', .month2, .lit '-', .day2]

/-- The date `save_news` derives from the item (lines 1287-1290), with
`datetime.now()` (the `now` parameter) as the fallback. -/
def newsDateOf (now : PyDateTime) (news : NewsItem) : PyDateTime :=
  (strptime fmtYmd news.date.data).getD now

def monthDirOf (base : FsPath) (d : PyDateTime) : FsPath :=
  base ++ [natStr d.year, pad2 d.month ++ "월"]

def dailyPathOf (base : FsPath) (d : PyDateTime) : FsPath :=
  monthDirOf base d ++ [pad2 d.month ++ "-" ++ pad2 d.day ++ ".md"]

/-- `MarkdownArchive.save_news` (lines 1275-1316). -/
def save_news (base : FsPath) (now : PyDateTime) (fs : Fs)
    (news : NewsItem) (analysis : Analysis) : Bool × Fs :=
  if is_duplicate fs (dailyPathOf base (newsDateOf now news)) news.title news.link then
    (false, fs)
  else
    (true,
      update_monthly_index
        (append_to_file fs (dailyPathOf base (newsDateOf now news))
          (format_news news analysis) (newsDateOf now news))
        (monthDirOf base (newsDateOf now news)) (newsDateOf now news))

def isDigitStr (s : String) : Bool := !s.data.isEmpty && s.data.all isDigitCh

/-- Does the month directory hold at least one daily file (lines 1335-1338)? -/
def hasDailyFiles (fs : Fs) (dir : FsPath) : Bool :=
  (childNames fs dir).any fun f => endsWithStr ".md" f && f != "README.md"

/-- One month-directory step of `regenerate_all_indexes` (lines 1329-1346);
`Except.error` models the uncaught `ValueError` of `int(...)` or
`datetime(...)` on a malformed directory name. -/
def regenMonthStep (yearNum : Nat) (yearPath : FsPath)
    (st : Except Unit (Fs × Nat)) (mdir : String) : Except Unit (Fs × Nat) :=
  match st with
  | .error e => .error e
  | .ok (fs, count) =>
    if isDirB fs (yearPath ++ [mdir]) && pyIn "월" mdir then
      if hasDailyFiles fs (yearPath ++ [mdir]) then
        match toNatDigits (pyRemoveAll "월".data mdir.data.length mdir.data) with
        | some mnum =>
          match mkDatetime yearNum mnum 1 0 0 0 none with
          | some dummy =>
            .ok (update_monthly_index fs (yearPath ++ [mdir]) dummy, count + 1)
          | none => .error ()
        | none => .error ()
      else .ok (fs, count)
    else .ok (fs, count)

/-- One year-directory step of `regenerate_all_indexes` (lines 1323-1346). -/
def regenYearStep (base : FsPath) (st : Except Unit (Fs × Nat)) (ydir : String) :
    Except Unit (Fs × Nat) :=
  match st with
  | .error e => .error e
  | .ok (fs, count) =>
    if isDirB fs (base ++ [ydir]) && isDigitStr ydir then
      match toNatDigits ydir.data with
      | some ynum =>
        (childNames fs (base ++ [ydir])).foldl
          (regenMonthStep ynum (base ++ [ydir])) (.ok (fs, count))
      | none => .error ()
    else .ok (fs, count)

/-- `MarkdownArchive.regenerate_all_indexes` (lines 1318-1348). -/
def regenerate_all_indexes (fs : Fs) (base : FsPath) : Except Unit (Fs × Nat) :=
  (childNames fs base).foldl (regenYearStep base) (.ok (fs, 0))

/-! ### File-system and substring lemmas -/

theorem fsRead_fsWrite_self (fs : Fs) (p : FsPath) (c : String) :
    fsRead (fsWrite fs p c) p = some c := by
  induction fs with
  | nil => simp [fsWrite, fsRead]
  | cons e rest ih =>
    obtain ⟨q, c0⟩ := e
    unfold fsWrite
    by_cases h : q = p
    · simp [h, fsRead]
    · simp only [if_neg h]
      show fsRead ((q, c0) :: fsWrite rest p c) p = some c
      unfold fsRead
      rw [if_neg h]
      exact ih

theorem fsRead_fsWrite_ne (fs : Fs) (p q : FsPath) (c : String) (h : p ≠ q) :
    fsRead (fsWrite fs p c) q = fsRead fs q := by
  induction fs with
  | nil => simp [fsWrite, fsRead, h]
  | cons e rest ih =>
    obtain ⟨r, c0⟩ := e
    unfold fsWrite
    by_cases hr : r = p
    · subst hr
      simp only [if_pos rfl]
      show fsRead ((r, c) :: rest) q = fsRead ((r, c0) :: rest) q
      unfold fsRead
      rw [if_neg h, if_neg h]
    · simp only [if_neg hr]
      show fsRead ((r, c0) :: fsWrite rest p c) q = fsRead ((r, c0) :: rest) q
      unfold fsRead
      by_cases hq : r = q
      · rw [if_pos hq, if_pos hq]
      · rw [if_neg hq, if_neg hq]
        exact ih

theorem hasSub_iff_parts (pat : List Char) :
    ∀ s, (hasSub pat s = true ↔ ∃ a b, s = a ++ pat ++ b)
  | [] => by
    constructor
    · intro h
      have hp : pat = [] := by
        cases pat with
        | nil => rfl
        | cons c t => simp [hasSub] at h
      exact ⟨[], [], by simp [hp]⟩
    · rintro ⟨a, b, hab⟩
      have h2 : a ++ (pat ++ b) = [] := by rw [← List.append_assoc]; exact hab.symm
      obtain ⟨ha, hpb⟩ := List.append_eq_nil.mp h2
      obtain ⟨hp, hb⟩ := List.append_eq_nil.mp hpb
      simp [hasSub, hp]
  | c :: t => by
    constructor
    · intro h
      have h2 : (pat.isPrefixOf (c :: t) || hasSub pat t) = true := h
      rcases (Bool.or_eq_true _ _).mp h2 with hpre | hsub
      · rcases List.isPrefixOf_iff_prefix.mp hpre with ⟨b, hb⟩
        exact ⟨[], b, by simp [← hb]⟩
      · rcases (hasSub_iff_parts pat t).mp hsub with ⟨a, b, hab⟩
        exact ⟨c :: a, b, by simp [hab]⟩
    · rintro ⟨a, b, hab⟩
      show (pat.isPrefixOf (c :: t) || hasSub pat t) = true
      cases a with
      | nil =>
        simp only [List.nil_append] at hab
        have hpre : pat.isPrefixOf (c :: t) = true :=
          List.isPrefixOf_iff_prefix.mpr ⟨b, hab.symm⟩
        simp [hpre]
      | cons x a2 =>
        rw [List.cons_append, List.cons_append] at hab
        have h1 : c = x ∧ t = a2 ++ pat ++ b := by
          rw [List.cons.injEq] at hab
          exact hab
        have hsub : hasSub pat t = true :=
          (hasSub_iff_parts pat t).mpr ⟨a2, b, h1.2⟩
        simp [hsub]

theorem hasSub_of_parts (pat a b : List Char) : hasSub pat (a ++ pat ++ b) = true :=
  (hasSub_iff_parts pat _).mpr ⟨a, b, rfl⟩

theorem hasSub_append_right (pat s t : List Char) (h : hasSub pat t = true) :
    hasSub pat (s ++ t) = true := by
  rcases (hasSub_iff_parts pat t).mp h with ⟨a, b, rfl⟩
  exact (hasSub_iff_parts pat _).mpr ⟨s ++ a, b, by simp⟩

theorem hasSub_append_left (pat s t : List Char) (h : hasSub pat s = true) :
    hasSub pat (s ++ t) = true := by
  rcases (hasSub_iff_parts pat s).mp h with ⟨a, b, rfl⟩
  exact (hasSub_iff_parts pat _).mpr ⟨a, b ++ t, by simp⟩

theorem hasSub_cons (pat : List Char) (c : Char) (t : List Char)
    (h : hasSub pat t = true) : hasSub pat (c :: t) = true := by
  have h2 := hasSub_append_right pat [c] t h
  simpa using h2

theorem hasSub_nil_pat (s : List Char) : hasSub [] s = true := by
  cases s <;> simp [hasSub]

theorem hasSub_joinNl_of_mem (pat l : List Char) (ls : List (List Char))
    (hmem : l ∈ ls) (h : hasSub pat l = true) : hasSub pat (joinNl ls) = true := by
  induction ls with
  | nil => simp at hmem
  | cons x xs ih =>
    rcases List.mem_cons.mp hmem with rfl | hmem2
    · cases xs with
      | nil => simpa [joinNl] using h
      | cons y ys =>
        show hasSub pat (l ++ '\n' :: joinNl (y :: ys)) = true
        exact hasSub_append_left _ _ _ h
    · cases xs with
      | nil => simp at hmem2
      | cons y ys =>
        show hasSub pat (x ++ '\n' :: joinNl (y :: ys)) = true
        exact hasSub_append_right _ _ _ (hasSub_cons _ _ _ (ih hmem2))

/-! ### Locating and replacing the TOC region -/

theorem findIdxOf_isSome_eq_hasSub (pat : List Char) :
    ∀ s, (findIdxOf pat s).isSome = hasSub pat s
  | [] => by
    unfold findIdxOf hasSub
    cases h : pat.isPrefixOf [] <;> simp [h]
  | c :: t => by
    unfold findIdxOf hasSub
    cases h : pat.isPrefixOf (c :: t) with
    | true => simp [h]
    | false =>
      simp only [h, if_neg Bool.false_ne_true, Bool.false_or]
      rw [← findIdxOf_isSome_eq_hasSub pat t]
      cases findIdxOf pat t <;> simp

theorem findIdxOf_none_of_not_hasSub (pat s : List Char) (h : hasSub pat s = false) :
    findIdxOf pat s = none := by
  have h2 := findIdxOf_isSome_eq_hasSub pat s
  rw [h] at h2
  cases hf : findIdxOf pat s
  · rfl
  · rw [hf] at h2
    simp at h2

theorem isPrefixOf_append_self (pat r : List Char) : pat.isPrefixOf (pat ++ r) = true :=
  List.isPrefixOf_iff_prefix.mpr ⟨r, rfl⟩

theorem findIdxOf_self_of_ne_nil (pat r : List Char) (h : pat ≠ []) :
    findIdxOf pat (pat ++ r) = some 0 := by
  cases pat with
  | nil => exact absurd rfl h
  | cons c0 p2 =>
    show findIdxOf (c0 :: p2) (c0 :: (p2 ++ r)) = some 0
    unfold findIdxOf
    rw [← List.cons_append, isPrefixOf_append_self]
    simp

theorem findIdxOf_cons_skip (pat : List Char) (c : Char) (t : List Char)
    (h : pat.isPrefixOf (c :: t) = false) :
    findIdxOf pat (c :: t) = (findIdxOf pat t).map (· + 1) := by
  have he : findIdxOf pat (c :: t) =
      if pat.isPrefixOf (c :: t) = true then some 0
      else (findIdxOf pat t).map (· + 1) := rfl
  rw [he, h]
  simp

theorem findIdxOf_append_no_head (pat H rest : List Char) (c0 : Char)
    (hpat : pat.head? = some c0) (hH : ∀ c ∈ H, c ≠ c0) :
    findIdxOf pat (H ++ rest) = (findIdxOf pat rest).map (· + H.length) := by
  induction H with
  | nil =>
    simp only [List.nil_append, List.length_nil]
    cases findIdxOf pat rest <;> simp
  | cons c H2 ih =>
    have hc : c ≠ c0 := hH c (List.mem_cons_self _ _)
    have hpre : pat.isPrefixOf (c :: (H2 ++ rest)) = false := by
      cases pat with
      | nil => simp at hpat
      | cons p0 ps =>
        have hp0 : p0 = c0 := by simpa using hpat
        subst hp0
        rw [List.isPrefixOf_cons₂]
        have : (p0 == c) = false := by
          simp only [beq_eq_false_iff_ne]
          exact fun hh => hc hh.symm
        simp [this]
    rw [List.cons_append, findIdxOf_cons_skip _ _ _ hpre,
      ih fun x hx => hH x (List.mem_cons_of_mem _ hx)]
    cases findIdxOf pat rest with
    | none => rfl
    | some k => simp [Nat.add_assoc]

theorem tocStart_head : tocStartMark.head? = some '<' := rfl

theorem tocEnd_head : tocEndMark.head? = some '<' := rfl

theorem replTocAux_no_start (toc : List Char) (fuel : Nat) (s : List Char)
    (h : hasSub tocStartMark s = false) : replTocAux toc fuel s = s := by
  cases fuel with
  | zero => rfl
  | succ n =>
    unfold replTocAux
    rw [findIdxOf_none_of_not_hasSub _ _ h]

/-- Replacing the TOC regions of a document of the shape
`H ++ START ++ "\n" ++ END ++ T` — no `<` in `H`, no start marker in `T` —
rewrites exactly the one region between the markers. -/
theorem replTocAux_structured (toc H T : List Char) (fuel : Nat)
    (hH : ∀ c ∈ H, c ≠ '<') (hT : hasSub tocStartMark T = false) :
    replTocAux toc (fuel + 1) (H ++ (tocStartMark ++ ('\n' :: (tocEndMark ++ T)))) =
      H ++ (tocStartMark ++ ('\n' :: (toc ++ ('\n' :: (tocEndMark ++ T))))) := by
  have hSne : tocStartMark ≠ [] := by decide
  have hEne : tocEndMark ≠ [] := by decide
  have h1 : findIdxOf tocStartMark (H ++ (tocStartMark ++ ('\n' :: (tocEndMark ++ T)))) =
      some H.length := by
    rw [findIdxOf_append_no_head _ _ _ '<' tocStart_head hH,
      findIdxOf_self_of_ne_nil _ _ hSne]
    simp
  unfold replTocAux
  rw [h1]
  simp only
  have hdrop1 : (H ++ (tocStartMark ++ ('\n' :: (tocEndMark ++ T)))).drop
      (H.length + tocStartMark.length) = '\n' :: (tocEndMark ++ T) := by
    rw [show H ++ (tocStartMark ++ ('\n' :: (tocEndMark ++ T))) =
        (H ++ tocStartMark) ++ ('\n' :: (tocEndMark ++ T)) by simp,
      List.drop_left' (by simp)]
  rw [hdrop1]
  have h2 : findIdxOf tocEndMark ('\n' :: (tocEndMark ++ T)) = some 1 := by
    rw [show ('\n' :: (tocEndMark ++ T)) = ['\n'] ++ (tocEndMark ++ T) by simp,
      findIdxOf_append_no_head _ _ _ '<' tocEnd_head (by decide),
      findIdxOf_self_of_ne_nil _ _ hEne]
    simp
  rw [h2]
  simp only
  have hdrop2 : ('\n' :: (tocEndMark ++ T)).drop (1 + tocEndMark.length) = T := by
    rw [show ('\n' :: (tocEndMark ++ T)) = ('\n' :: tocEndMark) ++ T by simp,
      List.drop_left' (by simp [Nat.add_comm])]
  rw [hdrop2]
  have htake : (H ++ (tocStartMark ++ ('\n' :: (tocEndMark ++ T)))).take H.length = H := by
    rw [show H ++ (tocStartMark ++ ('\n' :: (tocEndMark ++ T))) =
        H ++ (tocStartMark ++ ('\n' :: (tocEndMark ++ T))) from rfl]
    exact List.take_left' rfl
  rw [htake, replTocAux_no_start _ _ _ hT]
  simp

/-! ### Characters of rendered numbers and templates -/

theorem digitChar_digit (n : Nat) : isDigitCh (digitChar n) = true := by
  unfold digitChar
  repeat' split
  all_goals decide

theorem natToCharsFuel_digits (fuel : Nat) :
    ∀ (n : Nat) (acc : List Char), (∀ c ∈ acc, isDigitCh c = true) →
      ∀ c ∈ natToCharsFuel fuel n acc, isDigitCh c = true := by
  induction fuel with
  | zero => exact fun n acc hacc c hc => hacc c hc
  | succ f ih =>
    intro n acc hacc c hc
    unfold natToCharsFuel at hc
    split at hc
    · rcases List.mem_cons.mp hc with rfl | h
      · exact digitChar_digit _
      · exact hacc c h
    · refine ih _ _ ?_ c hc
      intro x hx
      rcases List.mem_cons.mp hx with rfl | h
      · exact digitChar_digit _
      · exact hacc x h

theorem natStr_digits (n : Nat) : ∀ c ∈ (natStr n).data, isDigitCh c = true :=
  fun c hc => natToCharsFuel_digits (n + 1) n [] (by simp) c hc

theorem natToCharsFuel_acc_ne_nil (fuel : Nat) :
    ∀ (n : Nat) (acc : List Char), acc ≠ [] → natToCharsFuel fuel n acc ≠ [] := by
  induction fuel with
  | zero => exact fun n acc h => h
  | succ f ih =>
    intro n acc h
    unfold natToCharsFuel
    split
    · simp
    · exact ih _ _ (by simp)

theorem natStr_ne_nil (n : Nat) : (natStr n).data ≠ [] := by
  show natToCharsFuel (n + 1) n [] ≠ []
  unfold natToCharsFuel
  split
  · simp
  · exact natToCharsFuel_acc_ne_nil n _ _ (by simp)

theorem digit_ne (c x : Char) (h : isDigitCh c = true) (hx : isDigitCh x = false) :
    c ≠ x := by
  intro he
  rw [he] at h
  rw [h] at hx
  simp at hx

theorem mem_lit_ne_lt (l : List Char) (hl : l.all (fun c => !(c == '<')) = true) :
    ∀ c ∈ l, c ≠ '<' := by
  intro c hc he
  subst he
  have h2 := List.all_eq_true.mp hl _ hc
  simp at h2

theorem pad2_digits (n : Nat) : ∀ c ∈ (pad2 n).data, isDigitCh c = true := by
  intro c hc
  unfold pad2 at hc
  split at hc
  · rw [String.data_append] at hc
    rcases List.mem_append.mp hc with h | h
    · rw [show ("0" : String).data = ['0'] from rfl] at h
      rcases List.mem_singleton.mp h with rfl
      decide
    · exact natStr_digits n c h
  · exact natStr_digits n c hc

theorem pad4_digits (n : Nat) : ∀ c ∈ (pad4 n).data, isDigitCh c = true := by
  intro c hc
  unfold pad4 at hc
  split at hc
  · rw [String.data_append] at hc
    rcases List.mem_append.mp hc with h | h
    · rw [show ("000" : String).data = ['0', '0', '0'] from rfl] at h
      simp only [List.mem_cons, List.not_mem_nil, or_false] at h
      rcases h with rfl | rfl | rfl <;> decide
    · exact natStr_digits n c h
  · split at hc
    · rw [String.data_append] at hc
      rcases List.mem_append.mp hc with h | h
      · rw [show ("00" : String).data = ['0', '0'] from rfl] at h
        simp only [List.mem_cons, List.not_mem_nil, or_false] at h
        rcases h with rfl | rfl <;> decide
      · exact natStr_digits n c h
    · split at hc
      · rw [String.data_append] at hc
        rcases List.mem_append.mp hc with h | h
        · rw [show ("0" : String).data = ['0'] from rfl] at h
          rcases List.mem_singleton.mp h with rfl
          decide
        · exact natStr_digits n c h
      · exact natStr_digits n c hc

theorem pad2_ne_nil (n : Nat) : (pad2 n).data ≠ [] := by
  unfold pad2
  split
  · rw [String.data_append]
    simp [show ("0" : String).data = ['0'] from rfl]
  · exact natStr_ne_nil n

theorem dateTitle_no_lt (d : PyDateTime) : ∀ c ∈ (dateTitle d).data, c ≠ '<' := by
  intro c hc
  unfold dateTitle at hc
  simp only [String.data_append, List.mem_append] at hc
  rcases hc with ((((h | h) | h) | h) | h) | h
  · exact digit_ne _ _ (pad4_digits _ _ h) (by decide)
  · exact mem_lit_ne_lt _ (by decide) _ h
  · exact digit_ne _ _ (pad2_digits _ _ h) (by decide)
  · exact mem_lit_ne_lt _ (by decide) _ h
  · exact digit_ne _ _ (pad2_digits _ _ h) (by decide)
  · exact mem_lit_ne_lt _ (by decide) _ h

theorem dailyName_ne_readme (d : PyDateTime) :
    (pad2 d.month ++ "-" ++ pad2 d.day ++ ".md") ≠ "README.md" := by
  intro h2
  have hd : (pad2 d.month ++ "-" ++ pad2 d.day ++ ".md").data = "README.md".data :=
    congrArg String.data h2
  rw [String.data_append, String.data_append, String.data_append] at hd
  cases hp : (pad2 d.month).data with
  | nil => exact pad2_ne_nil _ hp
  | cons c0 rest =>
    rw [hp] at hd
    have hc0 : c0 = 'R' := by
      have h3 := congrArg List.head? hd
      simpa using h3
    have hdig : isDigitCh c0 = true := pad2_digits _ c0 (by rw [hp]; exact List.mem_cons_self _ _)
    rw [hc0] at hdig
    simp [isDigitCh] at hdig

theorem dailyPath_ne_readmePath (base : FsPath) (d : PyDateTime) :
    dailyPathOf base d ≠ monthDirOf base d ++ ["README.md"] := by
  unfold dailyPathOf
  intro h
  have h2 := List.append_cancel_left h
  rw [List.cons.injEq] at h2
  exact dailyName_ne_readme d h2.1

/-- C7: whenever `save_news` returns `false`, nothing was written: the whole
file system — in particular the target daily file and the month's index
document — is exactly as it was before the call. -/
theorem c7_duplicate_writes_nothing (base : FsPath) (now : PyDateTime) (fs : Fs)
    (news : NewsItem) (analysis : Analysis)
    (h : (save_news base now fs news analysis).1 = false) :
    (save_news base now fs news analysis).2 = fs ∧
    fsRead (save_news base now fs news analysis).2 (dailyPathOf base (newsDateOf now news)) =
      fsRead fs (dailyPathOf base (newsDateOf now news)) ∧
    fsRead (save_news base now fs news analysis).2
        (monthDirOf base (newsDateOf now news) ++ ["README.md"]) =
      fsRead fs (monthDirOf base (newsDateOf now news) ++ ["README.md"]) := by
  by_cases hd : is_duplicate fs (dailyPathOf base (newsDateOf now news))
      news.title news.link = true
  · have hfs : (save_news base now fs news analysis).2 = fs := by
      unfold save_news
      rw [if_pos hd]
    exact ⟨hfs, by rw [hfs], by rw [hfs]⟩
  · exfalso
    unfold save_news at h
    rw [if_neg hd] at h
    simp at h

def c7wNow : PyDateTime := ⟨2025, 1, 1, 0, 0, 0, none⟩

def c7wNews : NewsItem := ⟨"W7 title", "http://w7", "", "2025-11-03", "s"⟩

def c7wAna : Analysis := ⟨none, none, none, none, none⟩

set_option maxRecDepth 1000000 in
/-- Closed instance of `c7_duplicate_writes_nothing`: re-saving an item after
a first save leaves the file system untouched. -/
theorem c7_duplicate_writes_nothing_witness :
    (save_news ["a7"] c7wNow (save_news ["a7"] c7wNow [] c7wNews c7wAna).2
        c7wNews c7wAna).2 =
      (save_news ["a7"] c7wNow [] c7wNews c7wAna).2 :=
  (c7_duplicate_writes_nothing _ _ _ _ _ (by decide)).1

/-- C10: with an empty link, once the target daily file exists, `save_news`
returns `false` whatever the title: the empty string is a substring of any
file content, so `_is_duplicate` always fires. -/
theorem c10_empty_link_duplicate (base : FsPath) (now : PyDateTime) (fs : Fs)
    (news : NewsItem) (analysis : Analysis) (hl : news.link = "")
    (hex : fsExists fs (dailyPathOf base (newsDateOf now news)) = true) :
    (save_news base now fs news analysis).1 = false := by
  have hd : is_duplicate fs (dailyPathOf base (newsDateOf now news))
      news.title news.link = true := by
    unfold is_duplicate
    cases hr : fsRead fs (dailyPathOf base (newsDateOf now news)) with
    | none =>
      unfold fsExists at hex
      rw [hr] at hex
      simp at hex
    | some content =>
      show (pyIn news.title content || pyIn news.link content) = true
      have hempty : pyIn news.link content = true := by
        rw [hl]
        exact hasSub_nil_pat content.data
      rw [hempty, Bool.or_true]
  unfold save_news
  rw [if_pos hd]

set_option maxRecDepth 1000000 in
/-- Closed instance of `c10_empty_link_duplicate` at a concrete file system. -/
theorem c10_empty_link_duplicate_witness :
    (save_news ["a0"] ⟨2025, 1, 1, 0, 0, 0, none⟩
      [(["a0", "2025", "11월", "11-04.md"], "old content")]
      ⟨"totally new title", "", "", "2025-11-04", "s"⟩
      ⟨none, none, none, none, none⟩).1 = false :=
  c10_empty_link_duplicate _ _ _ _ _ rfl (by decide)

def c5Now : PyDateTime := ⟨2025, 1, 1, 0, 0, 0, none⟩

def c5News : NewsItem :=
  ⟨"[1월1일] X", "<!-- TOC_START -->q<!-- TOC_END -->", "", "2025-12-25", "s"⟩

def c5Ana : Analysis := ⟨none, none, none, none, none⟩

set_option maxRecDepth 1000000 in
/-- C5 counterexample: `save_news` is *not* idempotent on every (title, link)
pair.  For an item whose title carries a date prefix (stripped on rendering)
and whose link contains a TOC-marker pair (mangled by the index rewrite),
saving twice into a fresh daily file returns `true` twice. -/
theorem c5_not_idempotent :
    (save_news ["b5"] c5Now [] c5News c5Ana).1 = true ∧
    (save_news ["b5"] c5Now (save_news ["b5"] c5Now [] c5News c5Ana).2
        c5News c5Ana).1 = true := by
  constructor <;> decide

/-! ### The daily-file document after a first save -/

/-- Everything before the TOC start marker in a fresh daily file. -/
def headPrefix (d : PyDateTime) : List Char :=
  "# 🤖 AI 뉴스 - ".data ++ ((dateTitle d).data ++ ("\n\n## 📑 목차\n\n" : String).data)

/-- Everything after the TOC end marker in a fresh daily file. -/
def tailAfterToc (entry : List Char) : List Char :=
  ("\n\n---\n\n" : String).data ++ entry

theorem headPrefix_no_lt (d : PyDateTime) : ∀ c ∈ headPrefix d, c ≠ '<' := by
  intro c hc
  unfold headPrefix at hc
  rcases List.mem_append.mp hc with h | h
  · exact mem_lit_ne_lt _ (by decide) _ h
  · rcases List.mem_append.mp h with h2 | h2
    · exact dateTitle_no_lt d c h2
    · exact mem_lit_ne_lt _ (by decide) _ h2

theorem newFile_content_split (d : PyDateTime) (entry : String) :
    (newFileHeader (dateTitle d) ++ entry).data =
      headPrefix d ++ (tocStartMark ++ ('\n' :: (tocEndMark ++ tailAfterToc entry.data))) := by
  unfold newFileHeader headPrefix tailAfterToc
  simp only [String.data_append, List.append_assoc]
  rfl

theorem replTocAux_structured_ge (toc H T : List Char) (fuel : Nat) (hf : 1 ≤ fuel)
    (hH : ∀ c ∈ H, c ≠ '<') (hT : hasSub tocStartMark T = false) :
    replTocAux toc fuel (H ++ (tocStartMark ++ ('\n' :: (tocEndMark ++ T)))) =
      H ++ (tocStartMark ++ ('\n' :: (toc ++ ('\n' :: (tocEndMark ++ T))))) := by
  obtain ⟨k, rfl⟩ : ∃ k, fuel = k + 1 := ⟨fuel - 1, by omega⟩
  exact replTocAux_structured toc H T k hH hT

theorem link_in_format_news (news : NewsItem) (analysis : Analysis) :
    hasSub news.link.data (format_news news analysis).data = true := by
  show hasSub news.link.data (joinNl ((format_news_lines news analysis).map String.data)) = true
  apply hasSub_joinNl_of_mem _ (("🔗 [원문 보기](" ++ news.link ++ ")" : String).data)
  · apply List.mem_map_of_mem
    unfold format_news_lines
    simp [List.mem_append]
  · rw [String.data_append, String.data_append]
    exact hasSub_of_parts _ _ _


theorem pyIn_mk (pat : String) (l : List Char) :
    pyIn pat (String.mk l) = hasSub pat.data l := rfl

theorem is_duplicate_some (fs : Fs) (p : FsPath) (t l content : String)
    (h : fsRead fs p = some content) :
    is_duplicate fs p t l = (pyIn t content || pyIn l content) := by
  unfold is_duplicate
  rw [h]

theorem is_duplicate_none (fs : Fs) (p : FsPath) (t l : String)
    (h : fsRead fs p = none) : is_duplicate fs p t l = false := by
  unfold is_duplicate
  rw [h]

theorem save_news_of_dup (base : FsPath) (now : PyDateTime) (fs : Fs)
    (news : NewsItem) (analysis : Analysis)
    (h : is_duplicate fs (dailyPathOf base (newsDateOf now news))
      news.title news.link = true) :
    save_news base now fs news analysis = (false, fs) := by
  unfold save_news
  rw [if_pos h]

theorem save_news_of_not_dup (base : FsPath) (now : PyDateTime) (fs : Fs)
    (news : NewsItem) (analysis : Analysis)
    (h : is_duplicate fs (dailyPathOf base (newsDateOf now news))
      news.title news.link = false) :
    save_news base now fs news analysis =
      (true, update_monthly_index
        (append_to_file fs (dailyPathOf base (newsDateOf now news))
          (format_news news analysis) (newsDateOf now news))
        (monthDirOf base (newsDateOf now news)) (newsDateOf now news)) := by
  unfold save_news
  rw [if_neg (by simp [h])]

theorem append_to_file_new (fs : Fs) (p : FsPath) (content : String) (d : PyDateTime)
    (h : fsRead fs p = none) :
    append_to_file fs p content d =
      update_toc (fsWrite fs p (newFileHeader (dateTitle d) ++ content)) p := by
  unfold append_to_file
  rw [h]

theorem update_toc_written (fs : Fs) (p : FsPath) (c : String) :
    update_toc (fsWrite fs p c) p =
      fsWrite (fsWrite fs p c) p
        (String.mk (replaceTocRegions (tocBlockContent c.data) c.data)) := by
  unfold update_toc
  rw [fsRead_fsWrite_self]

theorem update_monthly_index_read_other (fs : Fs) (dir : FsPath) (d : PyDateTime)
    (q : FsPath) (h : dir ++ ["README.md"] ≠ q) :
    fsRead (update_monthly_index fs dir d) q = fsRead fs q := by
  unfold update_monthly_index
  rw [fsRead_fsWrite_ne _ _ _ _ h]


/-- `List.all` packaging of a literal's characters avoiding a given one. -/
theorem mem_lit_ne (l : List Char) (x : Char)
    (hl : l.all (fun c => !(c == x)) = true) : ∀ c ∈ l, c ≠ x := by
  intro c hc he
  subst he
  have h2 := List.all_eq_true.mp hl _ hc
  simp at h2

theorem dateTitle_no_backslash (d : PyDateTime) :
    ∀ c ∈ (dateTitle d).data, c ≠ '\\' := by
  intro c hc
  unfold dateTitle at hc
  simp only [String.data_append, List.mem_append] at hc
  rcases hc with ((((h | h) | h) | h) | h) | h
  · exact digit_ne _ _ (pad4_digits _ _ h) (by decide)
  · exact mem_lit_ne _ _ (by decide) _ h
  · exact digit_ne _ _ (pad2_digits _ _ h) (by decide)
  · exact mem_lit_ne _ _ (by decide) _ h
  · exact digit_ne _ _ (pad2_digits _ _ h) (by decide)
  · exact mem_lit_ne _ _ (by decide) _ h

theorem newFileHeader_no_backslash (d : PyDateTime) :
    '\\' ∉ (newFileHeader (dateTitle d)).data := by
  intro h
  unfold newFileHeader at h
  simp only [String.data_append, List.mem_append] at h
  rcases h with (((((h | h) | h) | h) | h) | h) | h
  · exact mem_lit_ne _ _ (by decide) _ h rfl
  · exact dateTitle_no_backslash d _ h rfl
  · exact mem_lit_ne _ _ (by decide) _ h rfl
  · exact mem_lit_ne _ _ (by decide) _ h rfl
  · exact mem_lit_ne _ _ (by decide) _ h rfl
  · exact mem_lit_ne _ _ (by decide) _ h rfl
  · exact mem_lit_ne _ _ (by decide) _ h rfl

theorem splitOnNl_subset (s : List Char) :
    ∀ l ∈ splitOnNl s, ∀ c ∈ l, c ∈ s := by
  induction s with
  | nil =>
    intro l hl c hc
    rw [show splitOnNl [] = [[]] from rfl] at hl
    simp only [List.mem_singleton] at hl
    subst hl
    simp at hc
  | cons d t ih =>
    intro l hl c hc
    rw [splitOnNl.eq_def] at hl
    split at hl
    · simp at hl
      subst hl
      simp at hc
    · rename_i t3 heq
      injection heq with hd3 ht3
      subst ht3
      rcases List.mem_cons.mp hl with rfl | hl2
      · simp at hc
      · exact List.mem_cons_of_mem _ (ih l hl2 c hc)
    · rename_i d2 t2 hne1 hne2
      injection hne2 with hd2 ht2
      subst hd2
      subst ht2
      split at hl
      · rename_i hnil
        simp only [List.mem_singleton] at hl
        subst hl
        simp only [List.mem_singleton] at hc
        subst hc
        exact List.mem_cons_self _ _
      · rename_i a as hsplit
        rcases List.mem_cons.mp hl with rfl | hl2
        · rcases List.mem_cons.mp hc with rfl | hc2
          · exact List.mem_cons_self _ _
          · exact List.mem_cons_of_mem _
              (ih a (by rw [hsplit]; exact List.mem_cons_self _ _) c hc2)
        · exact List.mem_cons_of_mem _
            (ih l (by rw [hsplit]; exact List.mem_cons_of_mem _ hl2) c hc)

theorem tocTitleOf_subset (line tt : List Char) (h : tocTitleOf line = some tt) :
    ∀ c ∈ tt, c ∈ line := by
  intro c hc
  rw [tocTitleOf.eq_def] at h
  split at h
  · split at h
    · rename_i d rest hcond
      simp only [Option.some.injEq] at h
      subst h
      simp only [List.mem_cons]
      rcases List.mem_cons.mp hc with rfl | hc2
      · tauto
      · tauto
    · cases h
  · cases h

theorem intercalate_nl_mem (c : Char) (ls : List (List Char))
    (h : c ∈ List.intercalate ['\n'] ls) : c = '\n' ∨ ∃ l ∈ ls, c ∈ l := by
  induction ls with
  | nil =>
    rw [show List.intercalate ['\n'] [] = [] from rfl] at h
    simp at h
  | cons x t ih =>
    cases t with
    | nil =>
      rw [show List.intercalate ['\n'] [x] = x from by
        simp [List.intercalate]] at h
      exact Or.inr ⟨x, List.mem_singleton_self _, h⟩
    | cons y t2 =>
      have he : List.intercalate ['\n'] (x :: y :: t2) =
          x ++ '\n' :: List.intercalate ['\n'] (y :: t2) := by
        simp [List.intercalate, List.intersperse]
      rw [he] at h
      rcases List.mem_append.mp h with h1 | h1
      · exact Or.inr ⟨x, List.mem_cons_self _ _, h1⟩
      · rcases List.mem_cons.mp h1 with rfl | h2
        · exact Or.inl rfl
        · rcases ih h2 with h3 | ⟨l, hl, hc⟩
          · exact Or.inl h3
          · exact Or.inr ⟨l, List.mem_cons_of_mem _ hl, hc⟩

theorem mem_collapseWsAux (c : Char) : ∀ (b : Bool) (l : List Char),
    c ∈ collapseWsAux b l → c = '-' ∨ c ∈ l := by
  intro b l
  induction l generalizing b with
  | nil =>
    intro h
    rw [show collapseWsAux b [] = [] from rfl] at h
    simp at h
  | cons d t ih =>
    intro h
    rw [show collapseWsAux b (d :: t) =
        (if isSpaceCh d then
          (if b then collapseWsAux true t else '-' :: collapseWsAux true t)
        else d :: collapseWsAux false t) from rfl] at h
    split at h
    · split at h
      · rcases ih true h with h1 | h1
        · exact Or.inl h1
        · exact Or.inr (List.mem_cons_of_mem _ h1)
      · rcases List.mem_cons.mp h with rfl | h2
        · exact Or.inl rfl
        · rcases ih true h2 with h1 | h1
          · exact Or.inl h1
          · exact Or.inr (List.mem_cons_of_mem _ h1)
    · rcases List.mem_cons.mp h with rfl | h2
      · exact Or.inr (List.mem_cons_self _ _)
      · rcases ih false h2 with h1 | h1
        · exact Or.inl h1
        · exact Or.inr (List.mem_cons_of_mem _ h1)

theorem create_anchor_no_backslash (t : String) :
    '\\' ∉ (create_anchor t).data := by
  intro h
  unfold create_anchor dropEdgeHyphens at h
  rw [List.mem_reverse] at h
  have h2 := (List.dropWhile_sublist _).subset h
  rw [List.mem_reverse] at h2
  have h3 := (List.dropWhile_sublist _).subset h2
  rcases mem_collapseWsAux _ _ _ h3 with h4 | h4
  · exact absurd h4 (by decide)
  · have h5 := (List.mem_filter.mp h4).2
    exact absurd h5 (by decide)

theorem tocLine_no_backslash (i : Nat) (t : List Char) (ht : '\\' ∉ t) :
    '\\' ∉ tocLine i t := by
  intro h
  simp only [tocLine] at h
  simp only [List.mem_append, List.mem_cons, List.not_mem_nil, or_false] at h
  rcases h with ((((h | h) | h) | h) | h) | h
  · exact absurd (natStr_digits i _ h) (by decide)
  · exact absurd h (by decide)
  · split at h
    · rcases List.mem_append.mp h with h1 | h1
      · exact ht ((List.take_sublist _ _).subset h1)
      · exact absurd h1 (by decide)
    · exact ht h
  · exact absurd h (by decide)
  · exact create_anchor_no_backslash _ h
  · exact absurd h (by decide)

theorem mem_numberFrom (ts : List (List Char)) :
    ∀ (i : Nat) (l : List Char), l ∈ numberFrom i ts →
      ∃ j t, t ∈ ts ∧ l = tocLine j t := by
  induction ts with
  | nil =>
    intro i l h
    rw [show numberFrom i [] = [] from rfl] at h
    simp at h
  | cons t ts ih =>
    intro i l h
    rw [show numberFrom i (t :: ts) = tocLine i t :: numberFrom (i + 1) ts from rfl] at h
    rcases List.mem_cons.mp h with rfl | h2
    · exact ⟨i, t, List.mem_cons_self _ _, rfl⟩
    · obtain ⟨j, u, hu, hl⟩ := ih (i + 1) l h2
      exact ⟨j, u, List.mem_cons_of_mem _ hu, hl⟩

theorem tocBlockContent_no_backslash (content : List Char)
    (hcontent : '\\' ∉ content) : '\\' ∉ tocBlockContent content := by
  intro h
  simp only [tocBlockContent] at h
  split at h
  · exact absurd h (by decide)
  · rcases intercalate_nl_mem _ _ h with heq | ⟨l, hl, hc⟩
    · exact absurd heq (by decide)
    · obtain ⟨j, tt, htt, rfl⟩ := mem_numberFrom _ _ _ hl
      apply tocLine_no_backslash j tt ?_ hc
      intro hbs
      obtain ⟨line, hline, hto⟩ := List.mem_filterMap.mp htt
      exact hcontent (splitOnNl_subset content line hline _
        (tocTitleOf_subset line tt hto _ hbs))

/-- For a backslash-free rendered entry, the replacement template of the
first save's TOC rewrite is itself backslash-free, so `re.sub` parses it as
pure literal text: the rewrite neither raises `re.error` nor deviates from
the literal splice (`replTocAux`) of the model. -/
theorem tocTemplate_no_backslash (d : PyDateTime) (entry : String)
    (hent : '\\' ∉ entry.data) :
    '\\' ∉ tocTemplate ((newFileHeader (dateTitle d) ++ entry).data) := by
  intro h
  unfold tocTemplate at h
  rcases List.mem_append.mp h with h | h
  · rcases List.mem_append.mp h with h | h
    · exact absurd h (by decide)
    · rcases List.mem_cons.mp h with heq | h
      · exact absurd heq (by decide)
      · apply tocBlockContent_no_backslash _ ?_ h
        intro h2
        rw [String.data_append] at h2
        rcases List.mem_append.mp h2 with h3 | h3
        · exact newFileHeader_no_backslash d h3
        · exact hent h3
  · rcases List.mem_cons.mp h with heq | h
    · exact absurd heq (by decide)
    · exact absurd h (by decide)

/-- C5 amended: `save_news` is idempotent on the (title, link) pair for every
item whose rendered entry contains neither the TOC start marker (see the
counterexample for the marker exception) nor a backslash — true of all real
items: a first save into an absent daily file returns `true`, and a second
save of the same (title, link) pair with the same date returns `false`.  The
backslash exclusion keeps the item inside the model's faithful domain: the
first conjunct proves the replacement template `_update_toc` hands to
`re.sub` is then backslash-free, so CPython parses it as pure literal text —
the rewrite neither raises `re.error` (as it would on a `\`-letter or
`\`-digit escape smuggled in through a title) nor deviates from the literal
splice the model performs. -/
theorem c5_idempotent_no_markers (base : FsPath) (now : PyDateTime) (fs : Fs)
    (news news2 : NewsItem) (analysis analysis2 : Analysis)
    (habs : fsRead fs (dailyPathOf base (newsDateOf now news)) = none)
    (hS : hasSub tocStartMark (format_news news analysis).data = false)
    (hNoBS : '\\' ∉ (format_news news analysis).data)
    (ht2 : news2.title = news.title) (hk2 : news2.link = news.link)
    (hdt2 : news2.date = news.date) :
    '\\' ∉ tocTemplate ((newFileHeader (dateTitle (newsDateOf now news)) ++
      format_news news analysis).data) ∧
    (save_news base now fs news analysis).1 = true ∧
    (save_news base now (save_news base now fs news analysis).2 news2 analysis2).1 = false := by
  have hsave1 := save_news_of_not_dup base now fs news analysis
    (is_duplicate_none _ _ _ _ habs)
  have hsave1b : (save_news base now fs news analysis).2 =
      update_monthly_index
        (append_to_file fs (dailyPathOf base (newsDateOf now news))
          (format_news news analysis) (newsDateOf now news))
        (monthDirOf base (newsDateOf now news)) (newsDateOf now news) := by
    rw [hsave1]
  have hTne : hasSub tocStartMark (tailAfterToc (format_news news analysis).data) = false := by
    unfold tailAfterToc
    have h1 := findIdxOf_append_no_head tocStartMark ("\n\n---\n\n" : String).data
      (format_news news analysis).data '<' tocStart_head (mem_lit_ne_lt _ (by decide))
    rw [findIdxOf_none_of_not_hasSub _ _ hS] at h1
    simp only [Option.map_none'] at h1
    have h3 := findIdxOf_isSome_eq_hasSub tocStartMark
      (("\n\n---\n\n" : String).data ++ (format_news news analysis).data)
    rw [h1] at h3
    simpa using h3.symm
  have hrepl : ∀ toc, replaceTocRegions toc
      (newFileHeader (dateTitle (newsDateOf now news)) ++ format_news news analysis).data =
      headPrefix (newsDateOf now news) ++ (tocStartMark ++ ('\n' :: (toc ++
        ('\n' :: (tocEndMark ++ tailAfterToc (format_news news analysis).data))))) := by
    intro toc
    unfold replaceTocRegions
    rw [newFile_content_split (newsDateOf now news) (format_news news analysis)]
    apply replTocAux_structured_ge _ _ _ _ ?_ (headPrefix_no_lt _) hTne
    rw [List.length_append]
    have h0 : 0 < (headPrefix (newsDateOf now news)).length := by
      unfold headPrefix
      rw [List.length_append]
      have h1 : 0 < ("# 🤖 AI 뉴스 - " : String).data.length := by decide
      omega
    omega
  have hfs2read : fsRead (save_news base now fs news analysis).2
      (dailyPathOf base (newsDateOf now news)) =
      some (String.mk (replaceTocRegions
        (tocBlockContent (newFileHeader (dateTitle (newsDateOf now news)) ++
          format_news news analysis).data)
        (newFileHeader (dateTitle (newsDateOf now news)) ++
          format_news news analysis).data)) := by
    rw [hsave1b,
      update_monthly_index_read_other _ _ _ _
        (Ne.symm (dailyPath_ne_readmePath base (newsDateOf now news))),
      append_to_file_new _ _ _ _ habs, update_toc_written, fsRead_fsWrite_self]
  have hdeq : newsDateOf now news2 = newsDateOf now news := by
    unfold newsDateOf
    rw [hdt2]
  have hlinkC1 : pyIn news2.link (String.mk (replaceTocRegions
      (tocBlockContent (newFileHeader (dateTitle (newsDateOf now news)) ++
        format_news news analysis).data)
      (newFileHeader (dateTitle (newsDateOf now news)) ++
        format_news news analysis).data)) = true := by
    rw [hk2, pyIn_mk, hrepl]
    apply hasSub_append_right
    apply hasSub_append_right
    apply hasSub_cons
    apply hasSub_append_right
    apply hasSub_cons
    apply hasSub_append_right
    unfold tailAfterToc
    apply hasSub_append_right
    exact link_in_format_news news analysis
  have hdup2 : is_duplicate (save_news base now fs news analysis).2
      (dailyPathOf base (newsDateOf now news2)) news2.title news2.link = true := by
    rw [hdeq, is_duplicate_some _ _ _ _ _ hfs2read, hlinkC1, Bool.or_true]
  refine ⟨tocTemplate_no_backslash (newsDateOf now news)
    (format_news news analysis) hNoBS, ?_, ?_⟩
  · rw [hsave1]
  · rw [(save_news_of_dup base now (save_news base now fs news analysis).2
      news2 analysis2 hdup2)]

/-! ### The monthly-index count (claim C6) -/

/-- The sum, over the month directory's daily files, of the number of entry
headings found by the scan of `_update_monthly_index`. -/
def monthTotal (fs : Fs) (dir : FsPath) : Nat :=
  ((dailyFileNames fs dir).map fun f =>
    (newsTitlesIn ((fsRead fs (dir ++ [f])).getD "")).length).sum

/-- The daily-file names before sorting. -/
def dailyNamesRaw (fs : Fs) (dir : FsPath) : List String :=
  (childNames fs dir).filter fun f => endsWithStr ".md" f && f != "README.md"

theorem perm_insertDesc (x : String) (l : List String) :
    List.Perm (insertDesc x l) (x :: l) := by
  induction l with
  | nil => exact List.Perm.refl _
  | cons y ys ih =>
    unfold insertDesc
    split
    · exact List.Perm.refl _
    · exact (ih.cons y).trans (List.Perm.swap _ _ _)

theorem perm_sortDescStr (l : List String) : List.Perm (sortDescStr l) l := by
  induction l with
  | nil => exact List.Perm.refl _
  | cons x xs ih => exact (perm_insertDesc x (sortDescStr xs)).trans (ih.cons x)

theorem monthTotal_eq_raw (fs : Fs) (dir : FsPath) :
    monthTotal fs dir = ((dailyNamesRaw fs dir).map fun f =>
      (newsTitlesIn ((fsRead fs (dir ++ [f])).getD "")).length).sum := by
  unfold monthTotal dailyFileNames dailyNamesRaw
  exact (((perm_sortDescStr (childNames fs dir)).filter _).map _).sum_eq

theorem perm_of_nodup_mem_iff {α : Type} [DecidableEq α] {l1 l2 : List α}
    (h1 : l1.Nodup) (h2 : l2.Nodup) (h : ∀ z, z ∈ l1 ↔ z ∈ l2) :
    List.Perm l1 l2 := by
  rw [List.perm_iff_count]
  intro a
  by_cases ha : a ∈ l1
  · rw [List.count_eq_one_of_mem h1 ha, List.count_eq_one_of_mem h2 ((h a).mp ha)]
  · rw [List.count_eq_zero_of_not_mem ha,
      List.count_eq_zero_of_not_mem (fun hb => ha ((h a).mpr hb))]

theorem dedup_append_singleton_mem {α : Type} [DecidableEq α] (l : List α) (x : α)
    (h : x ∈ l) : List.Perm (l ++ [x]).dedup l.dedup := by
  refine perm_of_nodup_mem_iff (List.nodup_dedup _) (List.nodup_dedup _) fun z => ?_
  rw [List.mem_dedup, List.mem_dedup, List.mem_append, List.mem_singleton]
  constructor
  · rintro (hz | rfl)
    · exact hz
    · exact h
  · exact Or.inl

theorem dedup_append_singleton_not_mem {α : Type} [DecidableEq α] (l : List α) (x : α)
    (h : x ∉ l) : List.Perm (l ++ [x]).dedup (l.dedup ++ [x]) := by
  refine perm_of_nodup_mem_iff (List.nodup_dedup _) ?_ fun z => ?_
  · rw [List.nodup_append]
    exact ⟨List.nodup_dedup _, List.nodup_singleton _,
      fun a ha hb => h ((List.mem_singleton.mp hb) ▸ List.mem_dedup.mp ha)⟩
  · rw [List.mem_dedup, List.mem_append, List.mem_append, List.mem_dedup]

theorem fsWrite_append_of_none (fs : Fs) (p : FsPath) (c : String)
    (h : fsRead fs p = none) : fsWrite fs p c = fs ++ [(p, c)] := by
  induction fs with
  | nil => rfl
  | cons e rest ih =>
    obtain ⟨q, c0⟩ := e
    unfold fsRead at h
    unfold fsWrite
    by_cases hq : q = p
    · rw [if_pos hq] at h
      simp at h
    · rw [if_neg hq] at h
      rw [if_neg hq, List.cons_append, ih h]

theorem fsWrite_fst_of_some (fs : Fs) (p : FsPath) (c c0 : String)
    (h : fsRead fs p = some c0) :
    (fsWrite fs p c).map Prod.fst = fs.map Prod.fst := by
  induction fs with
  | nil => simp [fsRead] at h
  | cons e rest ih =>
    obtain ⟨q, cq⟩ := e
    unfold fsRead at h
    unfold fsWrite
    by_cases hq : q = p
    · rw [if_pos hq]
      simp [hq]
    · rw [if_neg hq] at h
      rw [if_neg hq, List.map_cons, List.map_cons, ih h]

theorem childNames_of_fst (fs : Fs) (dir : FsPath) :
    childNames fs dir = ((fs.map Prod.fst).filterMap (childOf dir)).dedup := by
  unfold childNames
  rw [List.filterMap_map]
  rfl

theorem fsRead_fsWrite_readme_daily (fs : Fs) (dir dir2 : FsPath) (c : String)
    (f : String) (hf : f ≠ "README.md") :
    fsRead (fsWrite fs (dir ++ ["README.md"]) c) (dir2 ++ [f]) =
      fsRead fs (dir2 ++ [f]) := by
  apply fsRead_fsWrite_ne
  intro he
  have h1 : (dir ++ ["README.md"]).getLast? = some "README.md" := by
    rw [List.getLast?_concat]
  have h2 : (dir2 ++ [f]).getLast? = some f := by
    rw [List.getLast?_concat]
  rw [he] at h1
  have h3 := h1.symm.trans h2
  simp at h3
  exact hf h3.symm

theorem fsRead_some_mem (fs : Fs) (q : FsPath) (x : String)
    (h : fsRead fs q = some x) : (q, x) ∈ fs := by
  induction fs with
  | nil => simp [fsRead] at h
  | cons e rest ih =>
    obtain ⟨r, cr⟩ := e
    unfold fsRead at h
    by_cases hr : r = q
    · rw [if_pos hr] at h
      simp only [Option.some.injEq] at h
      subst hr
      subst h
      exact List.mem_cons_self _ _
    · rw [if_neg hr] at h
      exact List.mem_cons_of_mem _ (ih h)

theorem childOf_self_append (dir : FsPath) (g : String) (rest : List String) :
    childOf dir (dir ++ g :: rest) = some g := by
  induction dir with
  | nil => rfl
  | cons d ds ih =>
    show childOf (d :: ds) (d :: (ds ++ g :: rest)) = some g
    unfold childOf
    rw [if_pos rfl]
    exact ih

theorem mem_childNames_of_read (fs : Fs) (dir2 : FsPath) (g : String) (x : String)
    (h : fsRead fs (dir2 ++ [g]) = some x) : g ∈ childNames fs dir2 := by
  unfold childNames
  rw [List.mem_dedup, List.mem_filterMap]
  exact ⟨(dir2 ++ [g], x), fsRead_some_mem _ _ _ h, childOf_self_append dir2 g []⟩

theorem newsTitlesIn_empty : newsTitlesIn "" = [] := rfl

theorem monthTotal_fsWrite_readme (fs : Fs) (dir dir2 : FsPath) (c : String) :
    monthTotal (fsWrite fs (dir ++ ["README.md"]) c) dir2 = monthTotal fs dir2 := by
  rw [monthTotal_eq_raw, monthTotal_eq_raw]
  have hflt : ∀ f ∈ dailyNamesRaw (fsWrite fs (dir ++ ["README.md"]) c) dir2,
      f ≠ "README.md" := by
    intro f hf
    have h2 := (List.mem_filter.mp hf).2
    rw [Bool.and_eq_true] at h2
    simpa using h2.2
  rw [List.map_congr_left (fun f hf => by
    rw [fsRead_fsWrite_readme_daily fs dir dir2 c f (hflt f hf)])]
  have hperm : List.Perm (dailyNamesRaw (fsWrite fs (dir ++ ["README.md"]) c) dir2)
      (dailyNamesRaw fs dir2) ∨
      (∃ g, List.Perm (dailyNamesRaw (fsWrite fs (dir ++ ["README.md"]) c) dir2)
        (dailyNamesRaw fs dir2 ++ [g]) ∧ fsRead fs (dir2 ++ [g]) = none) := by
    cases hex : fsRead fs (dir ++ ["README.md"]) with
    | some c0 =>
      left
      unfold dailyNamesRaw
      rw [childNames_of_fst, childNames_of_fst, fsWrite_fst_of_some _ _ _ _ hex]
    | none =>
      have hw : fsWrite fs (dir ++ ["README.md"]) c = fs ++ [(dir ++ ["README.md"], c)] :=
        fsWrite_append_of_none _ _ _ hex
      have hfm : (fs ++ [(dir ++ ["README.md"], c)]).filterMap
          (fun e => childOf dir2 e.1) =
          fs.filterMap (fun e => childOf dir2 e.1) ++
            (childOf dir2 (dir ++ ["README.md"])).toList := by
        rw [List.filterMap_append]
        rfl
      cases hg : childOf dir2 (dir ++ ["README.md"]) with
      | none =>
        left
        unfold dailyNamesRaw childNames
        rw [hw, hfm, hg]
        simp
      | some g =>
        by_cases hmem : g ∈ fs.filterMap (fun e => childOf dir2 e.1)
        · left
          unfold dailyNamesRaw childNames
          rw [hw, hfm, hg]
          exact (dedup_append_singleton_mem _ _ hmem).filter _
        · by_cases hPg : (endsWithStr ".md" g && g != "README.md") = true
          · right
            refine ⟨g, ?_, ?_⟩
            · unfold dailyNamesRaw childNames
              rw [hw, hfm, hg]
              have hp := (dedup_append_singleton_not_mem _ _ hmem).filter
                (fun f => endsWithStr ".md" f && f != "README.md")
              rw [List.filter_append] at hp
              simpa [hPg] using hp
            · cases hr : fsRead fs (dir2 ++ [g]) with
              | none => rfl
              | some x =>
                exfalso
                have hm := mem_childNames_of_read fs dir2 g x hr
                unfold childNames at hm
                exact hmem (List.mem_dedup.mp hm)
          · left
            unfold dailyNamesRaw childNames
            rw [hw, hfm, hg]
            have hp := (dedup_append_singleton_not_mem _ _ hmem).filter
              (fun f => endsWithStr ".md" f && f != "README.md")
            rw [List.filter_append] at hp
            simpa [hPg] using hp
  rcases hperm with hp | ⟨g, hp, hnone⟩
  · exact (hp.map _).sum_eq
  · rw [(hp.map _).sum_eq, List.map_append, List.sum_append]
    simp [hnone, newsTitlesIn_empty]

theorem dailySection_snd (fs : Fs) (dir : FsPath) (f : String) :
    (dailySection fs dir f).2 =
      (newsTitlesIn ((fsRead fs (dir ++ [f])).getD "")).length := rfl

theorem buildIndex_fold_snd (fs : Fs) (dir : FsPath) :
    ∀ (files : List String) (acc : List (List Char) × Nat),
      (files.foldl (fun (acc : List (List Char) × Nat) f =>
        let sec := dailySection fs dir f
        (acc.1 ++ sec.1, acc.2 + sec.2)) acc).2 =
      acc.2 + (files.map fun f =>
        (newsTitlesIn ((fsRead fs (dir ++ [f])).getD "")).length).sum := by
  intro files
  induction files with
  | nil => intro acc; simp
  | cons f rest ih =>
    intro acc
    rw [List.foldl_cons, ih, List.map_cons, List.sum_cons]
    show (acc.2 + (dailySection fs dir f).2) + _ = _
    rw [dailySection_snd]
    omega

theorem buildMonthIndex_total (fs : Fs) (dir : FsPath) (mt : String) :
    (buildMonthIndex fs dir mt).2 = monthTotal fs dir := by
  show ((dailyFileNames fs dir).foldl (fun (acc : List (List Char) × Nat) f =>
    let sec := dailySection fs dir f
    (acc.1 ++ sec.1, acc.2 + sec.2)) ([], 0)).2 = monthTotal fs dir
  rw [buildIndex_fold_snd]
  unfold monthTotal
  omega

theorem hasSub_total_pattern (n : Nat) (A B : List Char) :
    hasSub (("총 **" : String).data ++ ((natStr n).data ++ ("건**" : String).data))
      (A ++ (("\n\n> 총 **" : String).data ++ ((natStr n).data ++
        (("건**의 뉴스가 수집되었습니다.\n\n## 📑 목차\n\n" : String).data ++ B)))) = true := by
  refine (hasSub_iff_parts _ _).mpr
    ⟨A ++ ("\n\n> " : String).data,
     ("의 뉴스가 수집되었습니다.\n\n## 📑 목차\n\n" : String).data ++ B, ?_⟩
  rw [show ("\n\n> 총 **" : String).data =
      ("\n\n> " : String).data ++ ("총 **" : String).data from rfl,
    show ("건**의 뉴스가 수집되었습니다.\n\n## 📑 목차\n\n" : String).data =
      ("건**" : String).data ++
        ("의 뉴스가 수집되었습니다.\n\n## 📑 목차\n\n" : String).data from rfl]
  simp [List.append_assoc]

theorem buildMonthIndex_shows_total (fs : Fs) (dir : FsPath) (mt : String) :
    pyIn ("총 **" ++ natStr (monthTotal fs dir) ++ "건**")
      (buildMonthIndex fs dir mt).1 = true := by
  have hb : (buildMonthIndex fs dir mt).1 = String.mk (
      ("# 🤖 AI 뉴스 아카이브 - " : String).data ++ (mt.data ++
      (("\n\n> 총 **" : String).data ++ ((natStr (buildMonthIndex fs dir mt).2).data ++
      (("건**의 뉴스가 수집되었습니다.\n\n## 📑 목차\n\n" : String).data ++
      ((((dailyFileNames fs dir).foldl (fun (acc : List (List Char) × Nat) f =>
          let sec := dailySection fs dir f
          (acc.1 ++ sec.1, acc.2 + sec.2)) ([], 0)).1.foldr
            (fun line k => '\n' :: line ++ k) []) ++
      ("\n\n---\n\n*이 파일은 자동으로 생성됩니다.*\n" : String).data)))))) := by
    show (buildMonthIndex fs dir mt).1 = String.mk _
    unfold buildMonthIndex
    simp [List.append_assoc]
  rw [hb, pyIn_mk, buildMonthIndex_total] at *
  rw [show ("총 **" ++ natStr (monthTotal fs dir) ++ "건**").data =
      ("총 **" : String).data ++ ((natStr (monthTotal fs dir)).data ++
        ("건**" : String).data) from by simp [List.append_assoc]]
  apply hasSub_append_right
  apply hasSub_append_right
  exact hasSub_total_pattern _ [] _

theorem update_monthly_index_readme_read (fs : Fs) (dir : FsPath) (d : PyDateTime) :
    fsRead (update_monthly_index fs dir d) (dir ++ ["README.md"]) =
      some (buildMonthIndex fs dir (monthTitle d)).1 := by
  unfold update_monthly_index
  exact fsRead_fsWrite_self _ _ _

theorem monthTotal_update_monthly_index (fs : Fs) (dir dir2 : FsPath) (d : PyDateTime) :
    monthTotal (update_monthly_index fs dir d) dir2 = monthTotal fs dir2 := by
  unfold update_monthly_index
  exact monthTotal_fsWrite_readme fs dir dir2 _

theorem foldl_regenMonthStep_error (y : Nat) (yp : FsPath) (e : Unit) :
    ∀ ms : List String, ms.foldl (regenMonthStep y yp) (.error e) = .error e := by
  intro ms
  induction ms with
  | nil => rfl
  | cons m rest ih => rw [List.foldl_cons]; exact ih

theorem foldl_regenYearStep_error (base : FsPath) (e : Unit) :
    ∀ ys : List String, ys.foldl (regenYearStep base) (.error e) = .error e := by
  intro ys
  induction ys with
  | nil => rfl
  | cons m rest ih => rw [List.foldl_cons]; exact ih

theorem regenMonthStep_ok_eq (y : Nat) (yp : FsPath) (fs : Fs) (n : Nat) (m : String) :
    regenMonthStep y yp (.ok (fs, n)) m =
      (if isDirB fs (yp ++ [m]) && pyIn "월" m then
        if hasDailyFiles fs (yp ++ [m]) then
          match toNatDigits (pyRemoveAll "월".data m.data.length m.data) with
          | some mnum =>
            match mkDatetime y mnum 1 0 0 0 none with
            | some dummy => .ok (update_monthly_index fs (yp ++ [m]) dummy, n + 1)
            | none => .error ()
          | none => .error ()
        else .ok (fs, n)
      else .ok (fs, n)) := rfl

theorem regenYearStep_ok_eq (base : FsPath) (fs : Fs) (n : Nat) (ydir : String) :
    regenYearStep base (.ok (fs, n)) ydir =
      (if isDirB fs (base ++ [ydir]) && isDigitStr ydir then
        match toNatDigits ydir.data with
        | some ynum =>
          (childNames fs (base ++ [ydir])).foldl
            (regenMonthStep ynum (base ++ [ydir])) (.ok (fs, n))
        | none => .error ()
      else .ok (fs, n)) := rfl

theorem regenMonthStep_ok_total (y : Nat) (yp : FsPath) (fs0 : Fs) (n0 : Nat)
    (m : String) (fs1 : Fs) (n1 : Nat)
    (h : regenMonthStep y yp (.ok (fs0, n0)) m = .ok (fs1, n1)) :
    ∀ dir, monthTotal fs1 dir = monthTotal fs0 dir := by
  intro dir
  rw [regenMonthStep_ok_eq] at h
  split at h
  · split at h
    · split at h
      · split at h
        · simp only [Except.ok.injEq, Prod.mk.injEq] at h
          rw [← h.1]
          exact monthTotal_update_monthly_index _ _ _ _
        · cases h
      · cases h
    · simp only [Except.ok.injEq, Prod.mk.injEq] at h
      rw [← h.1]
  · simp only [Except.ok.injEq, Prod.mk.injEq] at h
    rw [← h.1]

theorem regenMonthFold_total (y : Nat) (yp : FsPath) :
    ∀ (ms : List String) (fs0 : Fs) (n0 : Nat) (fs2 : Fs) (n2 : Nat),
      ms.foldl (regenMonthStep y yp) (.ok (fs0, n0)) = .ok (fs2, n2) →
      ∀ dir, monthTotal fs2 dir = monthTotal fs0 dir := by
  intro ms
  induction ms with
  | nil =>
    intro fs0 n0 fs2 n2 h dir
    simp only [List.foldl_nil, Except.ok.injEq, Prod.mk.injEq] at h
    rw [← h.1]
  | cons m rest ih =>
    intro fs0 n0 fs2 n2 h dir
    rw [List.foldl_cons] at h
    cases hmid : regenMonthStep y yp (.ok (fs0, n0)) m with
    | error e =>
      rw [hmid, foldl_regenMonthStep_error] at h
      cases h
    | ok pair =>
      obtain ⟨fs1, n1⟩ := pair
      rw [hmid] at h
      rw [ih fs1 n1 fs2 n2 h dir, regenMonthStep_ok_total y yp fs0 n0 m fs1 n1 hmid dir]

theorem regenYearStep_ok_total (base : FsPath) (fs0 : Fs) (n0 : Nat)
    (ydir : String) (fs1 : Fs) (n1 : Nat)
    (h : regenYearStep base (.ok (fs0, n0)) ydir = .ok (fs1, n1)) :
    ∀ dir, monthTotal fs1 dir = monthTotal fs0 dir := by
  intro dir
  rw [regenYearStep_ok_eq] at h
  split at h
  · split at h
    · exact regenMonthFold_total _ _ _ fs0 n0 fs1 n1 h dir
    · cases h
  · simp only [Except.ok.injEq, Prod.mk.injEq] at h
    rw [← h.1]

theorem regenYearFold_total (base : FsPath) :
    ∀ (ys : List String) (fs0 : Fs) (n0 : Nat) (fs2 : Fs) (n2 : Nat),
      ys.foldl (regenYearStep base) (.ok (fs0, n0)) = .ok (fs2, n2) →
      ∀ dir, monthTotal fs2 dir = monthTotal fs0 dir := by
  intro ys
  induction ys with
  | nil =>
    intro fs0 n0 fs2 n2 h dir
    simp only [List.foldl_nil, Except.ok.injEq, Prod.mk.injEq] at h
    rw [← h.1]
  | cons y rest ih =>
    intro fs0 n0 fs2 n2 h dir
    rw [List.foldl_cons] at h
    cases hmid : regenYearStep base (.ok (fs0, n0)) y with
    | error e =>
      rw [hmid, foldl_regenYearStep_error] at h
      cases h
    | ok pair =>
      obtain ⟨fs1, n1⟩ := pair
      rw [hmid] at h
      rw [ih fs1 n1 fs2 n2 h dir, regenYearStep_ok_total base fs0 n0 y fs1 n1 hmid dir]

theorem regenerate_preserves_monthTotal (fs : Fs) (base : FsPath) (fs2 : Fs) (n : Nat)
    (h : regenerate_all_indexes fs base = .ok (fs2, n)) :
    ∀ dir, monthTotal fs2 dir = monthTotal fs dir := by
  unfold regenerate_all_indexes at h
  exact regenYearFold_total base (childNames fs base) fs 0 fs2 n h

/-- **C6.** For every set of daily files in a month directory, the total count
written into the regenerated monthly index equals the sum, over those daily
files, of the number of `###`-level entry headings found by the heading scan
(`monthTotal`): the count computed by `_update_monthly_index` equals that sum
and the rendered index document displays it; rewriting a month index never
changes any month's heading sum; and whenever `regenerate_all_indexes`
succeeds, every month's heading sum — and hence the count any subsequent
index rebuild writes — is the same as before the regeneration. -/
theorem c6_monthly_index_total :
    (∀ (fs : Fs) (dir : FsPath) (mt : String),
        (buildMonthIndex fs dir mt).2 = monthTotal fs dir ∧
        pyIn ("총 **" ++ natStr (monthTotal fs dir) ++ "건**")
          (buildMonthIndex fs dir mt).1 = true) ∧
    (∀ (fs : Fs) (dir : FsPath) (d : PyDateTime),
        fsRead (update_monthly_index fs dir d) (dir ++ ["README.md"]) =
          some (buildMonthIndex fs dir (monthTitle d)).1 ∧
        ∀ dir2, monthTotal (update_monthly_index fs dir d) dir2 =
          monthTotal fs dir2) ∧
    (∀ (fs : Fs) (base : FsPath) (fs2 : Fs) (n : Nat),
        regenerate_all_indexes fs base = Except.ok (fs2, n) →
        ∀ dir, monthTotal fs2 dir = monthTotal fs dir) :=
  ⟨fun fs dir mt =>
    ⟨buildMonthIndex_total fs dir mt, buildMonthIndex_shows_total fs dir mt⟩,
   fun fs dir d =>
    ⟨update_monthly_index_readme_read fs dir d,
     fun dir2 => monthTotal_update_monthly_index fs dir dir2 d⟩,
   fun fs base fs2 n h => regenerate_preserves_monthTotal fs base fs2 n h⟩

/-- A concrete archive: one month directory holding one daily file with two
news headings. -/
def c6Fs : Fs :=
  [(["w", "2025", "12월", "12-25.md"],
    "## 📅 2025년 12월 25일\n\n### 제목 하나\n\n본문\n\n### 제목 둘\n")]

/-- The archive after `regenerate_all_indexes` rebuilds its single month
index. -/
def c6Fs2 : Fs :=
  update_monthly_index c6Fs ["w", "2025", "12월"]
    ⟨2025, 12, 1, 0, 0, 0, none⟩

set_option maxRecDepth 1000000 in
theorem c6_monthly_index_total_witness :
    regenerate_all_indexes c6Fs ["w"] = Except.ok (c6Fs2, 1) ∧
    monthTotal c6Fs2 ["w", "2025", "12월"] =
      monthTotal c6Fs ["w", "2025", "12월"] :=
  ⟨by rfl,
   c6_monthly_index_total.2.2 c6Fs ["w"] c6Fs2 1 (by rfl)
     ["w", "2025", "12월"]⟩

def c5wNow : PyDateTime := ⟨2025, 1, 1, 0, 0, 0, none⟩

def c5wNews : NewsItem := ⟨"Plain title", "http://w5.example/a", "", "2025-12-26", "s"⟩

def c5wAna : Analysis := ⟨none, none, none, none, none⟩

set_option maxRecDepth 1000000 in
theorem c5_idempotent_no_markers_witness :
    fsRead ([] : Fs) (dailyPathOf ["w5"] (newsDateOf c5wNow c5wNews)) = none ∧
    hasSub tocStartMark (format_news c5wNews c5wAna).data = false ∧
    '\\' ∉ (format_news c5wNews c5wAna).data ∧
    (save_news ["w5"] c5wNow [] c5wNews c5wAna).1 = true ∧
    (save_news ["w5"] c5wNow
      (save_news ["w5"] c5wNow [] c5wNews c5wAna).2 c5wNews c5wAna).1 = false :=
  ⟨rfl, by decide, by decide,
   (c5_idempotent_no_markers ["w5"] c5wNow [] c5wNews c5wNews c5wAna c5wAna
     rfl (by decide) (by decide) rfl rfl rfl).2.1,
   (c5_idempotent_no_markers ["w5"] c5wNow [] c5wNews c5wNews c5wAna c5wAna
     rfl (by decide) (by decide) rfl rfl rfl).2.2⟩
